import Mathlib

/-!
Verification development for the Wandero client-simulation repository.

The definitions below are a shallow embedding of the Python sources:

* `Mark I Demo/Mark_6.py` — the `StatefulWandero` information extractor and
  phase machine, `safe_llm_invoke`, and the `ParallelConversationEngine`;
* `Mark II/wandero_agent.py` — the negotiation discount logic;
* `Mark II/main.py` — the conversation-end check of the orchestrator;
* `demo/client_simulator.py` — the second `safe_llm_invoke` variant.

Machine text is modelled as `List Char`; Python regular-expression searches
are implemented as deterministic maximal-munch matchers, which coincide with
the backtracking semantics for the concrete patterns involved because every
adjacent pair of sub-patterns has disjoint first-character sets (arguments in
the comments next to each matcher).  Python floats are modelled as `ℚ`; the
discount and pricing computations only use `min`, `+`, `-` and comparisons on
decimal constants, and every divergence we exhibit is insensitive to
floating-point rounding.
-/

/-! ### String utilities

`subOf needle hay` is the Python substring test `needle in hay`.
`lowerL` is `str.lower` (ASCII, which is all the sources use).
-/

def lowerL (s : List Char) : List Char := s.map Char.toLower

def subOf (needle : List Char) : List Char → Bool
  | [] => needle.isEmpty
  | c :: rest => needle.isPrefixOf (c :: rest) || subOf needle rest

def isDigitOrComma (c : Char) : Bool := c.isDigit || c == ','

/-- Maximal nonempty run of characters satisfying `p` (greedy `X+`). -/
def span1 (p : Char → Bool) (s : List Char) : Option (List Char × List Char) :=
  match s.takeWhile p, s.dropWhile p with
  | [], _ => none
  | a, b => some (a, b)

/-- Convert a digit run to the number `int` would produce. -/
def digitsToNat (ds : List Char) : Nat :=
  ds.foldl (fun n c => 10 * n + (c.toNat - ('0').toNat)) 0

/-! ### Regex matchers of `_extract_information` (Mark_6.py lines 838-890)

`julyAt` matches the pattern `july\s+(\d+)[-\s]+(?:to\s+)?(\d+)` at the head
of the input.  Maximal munch is equivalent to backtracking here: whitespace,
digits, `[-\s]` and the literal `to` are pairwise first-character disjoint,
and when `to` is present but not followed by `\s+` the skipped-optional
alternative also fails (`\d+` cannot match the letter `t`).
-/

def julyAt (s : List Char) : Option (List Char × List Char) :=
  if (("july").toList).isPrefixOf s then
    match span1 Char.isWhitespace (s.drop 4) with
    | none => none
    | some (_, r1) =>
      match span1 Char.isDigit r1 with
      | none => none
      | some (d1, r2) =>
        match span1 (fun c => c == '-' || c.isWhitespace) r2 with
        | none => none
        | some (_, r3) =>
          let r4? : Option (List Char) :=
            if (("to").toList).isPrefixOf r3 then
              match span1 Char.isWhitespace (r3.drop 2) with
              | some (_, rr) => some rr
              | none => none
            else some r3
          match r4? with
          | none => none
          | some r4 =>
            match span1 Char.isDigit r4 with
            | none => none
            | some (d2, _) => some (d1, d2)
  else none

/-- Leftmost search for the `july ...` date pattern (Python `re.search`). -/
def julySearch : List Char → Option (List Char × List Char)
  | [] => none
  | c :: rest =>
    match julyAt (c :: rest) with
    | some g => some g
    | none => julySearch rest

/-- Matcher for `(?:ages?|aged?)\s*(\d+)\s*(?:and|&)\s*(\d+)` at the head of
the input.  The optional `s`/`d` after `age` is safe to consume greedily
because the following `\s*(\d+)` cannot match a letter. -/
def ageAt (s : List Char) : Option (Nat × Nat) :=
  if (("age").toList).isPrefixOf s then
    let r0 := s.drop 3
    let r0 := if r0.head? == some 's' || r0.head? == some 'd' then r0.tail else r0
    let r1 := r0.dropWhile Char.isWhitespace
    match span1 Char.isDigit r1 with
    | none => none
    | some (d1, r2) =>
      let r3 := r2.dropWhile Char.isWhitespace
      let r4? : Option (List Char) :=
        if (("and").toList).isPrefixOf r3 then some (r3.drop 3)
        else if r3.head? == some '&' then some r3.tail
        else none
      match r4? with
      | none => none
      | some r4 =>
        let r5 := r4.dropWhile Char.isWhitespace
        match span1 Char.isDigit r5 with
        | none => none
        | some (d2, _) => some (digitsToNat d1, digitsToNat d2)
  else none

/-- Leftmost search for the children-ages pattern. -/
def ageSearch : List Char → Option (Nat × Nat)
  | [] => none
  | c :: rest =>
    match ageAt (c :: rest) with
    | some g => some g
    | none => ageSearch rest

/-- Matcher for `\$?([\d,]+)\s*[-to]+\s*\$?([\d,]+)` at the head of the
input, returning the two raw groups.  `[-to]` is the character class
`{-, t, o}`; all adjacent sub-patterns are first-character disjoint, so
maximal munch again coincides with backtracking search. -/
def budgetAt (s : List Char) : Option (List Char × List Char) :=
  let s0 := if s.head? == some '$' then s.tail else s
  match span1 isDigitOrComma s0 with
  | none => none
  | some (g1, r1) =>
    let r2 := r1.dropWhile Char.isWhitespace
    match span1 (fun c => c == '-' || c == 't' || c == 'o') r2 with
    | none => none
    | some (_, r3) =>
      let r4 := r3.dropWhile Char.isWhitespace
      let r5 := if r4.head? == some '$' then r4.tail else r4
      match span1 isDigitOrComma r5 with
      | none => none
      | some (g2, _) => some (g1, g2)

/-- Leftmost search for the budget-range pattern (on the raw message:
the Python code searches `message`, not `msg_lower`, for this one rule). -/
def budgetSearch : List Char → Option (List Char × List Char)
  | [] => none
  | c :: rest =>
    match budgetAt (c :: rest) with
    | some g => some g
    | none => budgetSearch rest

/-- Python `int(group.replace(",", ""))`: strips commas, then parses; an
all-comma group leaves the empty string, on which `int` raises
`ValueError` — modelled as `none`. -/
def parseGroup (g : List Char) : Option Nat :=
  let ds := g.filter (fun c => c != ',')
  if ds.isEmpty then none else some (digitsToNat ds)

/-! ### The `StatefulWandero` state (Mark_6.py lines 781-810)

`collected_info` is a Python dict; we model it as an insertion-ordered
association list with `dictSet` (replace in place, else append) and
`dictGet`.  The dict values occurring in `_extract_information` are a
string (`travel_dates`), ints (`adults`, `group_size`, `children_count`),
an int list (`children_ages`), an int pair (`budget_range`) and a bool
(`has_allergies`); `Val` covers exactly these.
-/

inductive Val where
  | vs : List Char → Val
  | vn : Nat → Val
  | vl : List Nat → Val
  | vp : Nat → Nat → Val
  | vb : Bool → Val
deriving DecidableEq

def dictSet (k : String) (v : Val) : List (String × Val) → List (String × Val)
  | [] => [(k, v)]
  | (k1, v1) :: rest =>
    if k1 = k then (k, v) :: rest else (k1, v1) :: dictSet k v rest

def dictGet (k : String) : List (String × Val) → Option Val
  | [] => none
  | (k1, v1) :: rest => if k1 = k then some v1 else dictGet k rest

structure WState where
  collected_info : List (String × Val)
  missing_info : List String
  conversation_phase : String
  special_requirements : List String
deriving DecidableEq

/-- The initial state built by `StatefulWandero._initialize_state`. -/
def initWState : WState :=
  { collected_info := []
    missing_info :=
      ["travel_dates", "group_size", "children_ages", "budget", "special_requirements"]
    conversation_phase := "greeting"
    special_requirements := [] }

/-- Common shape of the first four extraction rules: write the listed
`collected_info` entries in order and drop one name from `missing_info`
(the Python list comprehension `[x for x in missing_info if x != k]`). -/
def setKV (ks : List (String × Val)) (k : String) (s : WState) : WState :=
  { s with
    collected_info := ks.foldl (fun d p => dictSet p.1 p.2 d) s.collected_info
    missing_info := s.missing_info.filter (fun x => x != k) }

/-! ### The five extraction rules (Mark_6.py lines 842-887)

Each rule's firing condition depends only on the message text, never on the
state; the `...Dec` functions compute the decision, the `r_...` functions
apply it.
-/

/-- Travel-dates rule: fires when `"july"` occurs and the date pattern
matches; stores the string `July {g1}-{g2}, 2024`. -/
def datesDec (low : List Char) : Option Val :=
  if subOf (("july").toList) low then
    (julySearch low).map
      (fun g => Val.vs ((("July ").toList) ++ g.1 ++ [('-')] ++ g.2 ++ ((", 2024").toList)))
  else none

def r_dates (low : List Char) (s : WState) : WState :=
  match datesDec low with
  | some v => setKV [(("travel_dates"), v)] ("travel_dates") s
  | none => s

def groupPhrases : List (List Char) :=
  [("2 adults").toList, ("two adults").toList, ("4 people").toList,
   ("four people").toList, ("family of 4").toList]

/-- Group-size rule: the keyword branch stores `adults = 2, group_size = 4`;
the `15` branch stores `group_size = 15`. -/
def groupDec (low : List Char) : Option (List (String × Val)) :=
  if groupPhrases.any (fun p => subOf p low) then
    some [(("adults"), Val.vn 2), (("group_size"), Val.vn 4)]
  else if subOf (("15").toList) low &&
      (subOf (("executive").toList) low || subOf (("people").toList) low) then
    some [(("group_size"), Val.vn 15)]
  else none

def r_group (low : List Char) (s : WState) : WState :=
  match groupDec low with
  | some ks => setKV ks ("group_size") s
  | none => s

/-- Children-ages rule: the regex branch, else the literal `12`/`8` branch. -/
def agesDec (low : List Char) : Option (List Nat) :=
  match ageSearch low with
  | some (a, b) => some [a, b]
  | none =>
    if subOf (("12").toList) low && subOf (("8").toList) low then some [12, 8]
    else none

def r_ages (low : List Char) (s : WState) : WState :=
  match agesDec low with
  | some ags =>
    setKV [(("children_ages"), Val.vl ags), (("children_count"), Val.vn ags.length)]
      ("children_ages") s
  | none => s

/-- Budget rule decision: `none` means the leftmost match has an all-comma
group, on which `int("")` raises `ValueError`; `some none` means the
pattern does not match (rule is a no-op); `some (some (m, M))` stores the
range. -/
def budgetDec (raw : List Char) : Option (Option (Nat × Nat)) :=
  match budgetSearch raw with
  | none => some none
  | some (g1, g2) =>
    match parseGroup g1, parseGroup g2 with
    | some m, some M => some (some (m, M))
    | _, _ => none

def r_budget (raw : List Char) (s : WState) : Option WState :=
  match budgetDec raw with
  | none => none
  | some none => some s
  | some (some (m, M)) => some (setKV [(("budget_range"), Val.vp m M)] ("budget") s)

/-- Total variant of the budget rule used to state order-independence (on
texts where the rule does not raise, it agrees with `r_budget`). -/
def r_budgetT (raw : List Char) (s : WState) : WState :=
  (r_budget raw s).getD s

/-- Special-requirements rule: on `"allerg"`, optionally append
`"nut allergy"`, set `has_allergies`, and `list.remove` the field from
`missing_info` if present. -/
def r_special (low : List Char) (s : WState) : WState :=
  if subOf (("allerg").toList) low then
    let s1 :=
      if subOf (("nut").toList) low then
        { s with special_requirements := s.special_requirements ++ ["nut allergy"] }
      else s
    let s2 := { s1 with collected_info := dictSet ("has_allergies") (Val.vb true) s1.collected_info }
    if s2.missing_info.contains ("special_requirements") then
      { s2 with missing_info := s2.missing_info.erase ("special_requirements") }
    else s2
  else s

/-- `StatefulWandero._update_phase` (lines 1207-1216).  Note that it tests
the key `"budget"`, which extraction never stores (it stores
`"budget_range"`). -/
def updatePhase (s : WState) : WState :=
  let hasEssential :=
    (dictGet ("travel_dates") s.collected_info).isSome &&
    (dictGet ("group_size") s.collected_info).isSome &&
    (dictGet ("budget") s.collected_info).isSome
  if hasEssential && s.conversation_phase == "gathering_info" then
    if (dictGet ("children_ages") s.collected_info).isSome then
      { s with conversation_phase := "preparing_proposal" }
    else
      { s with conversation_phase := "clarifying_details" }
  else s

/-- `StatefulWandero._extract_information` (lines 838-890): the five rules
in source order, then `_update_phase`.  The `Bool` is `false` when the
budget rule raises `ValueError`; the Python method mutates `self.state` in
place, so the state accompanying `false` is the partial state after the
first three rules (the budget rule crashes before assigning, and the
special-requirements rule and `_update_phase` never run). -/
def extractInfo (msg : List Char) (s : WState) : Bool × WState :=
  let low := lowerL msg
  let s3 := r_ages low (r_group low (r_dates low s))
  match r_budget msg s3 with
  | none => (false, s3)
  | some s4 => (true, updatePhase (r_special low s4))

/-! ### Phase effects of the response methods (Mark_6.py lines 812-1301)

`process_email` extracts information and then dispatches on
`conversation_phase`; only the state effects (phase updates) of the
response methods are modelled, not the generated reply text.
-/

/-- The four fields `_gathering_info_response` can prompt for (its
`missing_prompts` dict, lines 935-940) — note `group_size` is absent. -/
def missingPrompts : List String :=
  ["children_ages", "budget", "travel_dates", "special_requirements"]

/-- Promptable missing fields, in `missing_info` order. -/
def missingItems (s : WState) : List String :=
  s.missing_info.filter (fun x => missingPrompts.contains x)

/-- State effect of `_gathering_info_response` (lines 919-961): move to
`clarifying_details` when at most two promptable items are missing. -/
def gatheringInfoStep (s : WState) : WState :=
  if (missingItems s).length ≤ 2 then
    { s with conversation_phase := "clarifying_details" }
  else s

def acceptWords : List (List Char) :=
  [("perfect").toList, ("great").toList, ("book").toList, ("proceed").toList,
   ("confirm").toList]

def modifyWords : List (List Char) :=
  [("change").toList, ("modify").toList, ("different").toList, ("instead").toList,
   ("too expensive").toList, ("cheaper").toList]

/-- State effect of `_handle_proposal_feedback` (lines 1083-1102). -/
def proposalFeedbackStep (low : List Char) (s : WState) : WState :=
  if acceptWords.any (fun w => subOf w low) then
    { s with conversation_phase := "booking_confirmed" }
  else if modifyWords.any (fun w => subOf w low) then
    { s with conversation_phase := "negotiating" }
  else s

/-- State effect of `_clarifying_response` (lines 1218-1239): with nothing
missing, or only `special_requirements`, jump to the proposal (which sets
`proposal_sent`). -/
def clarifyingStep (s : WState) : WState :=
  if s.missing_info = [] ∨ s.missing_info = ["special_requirements"] then
    { s with conversation_phase := "proposal_sent" }
  else s

/-- Dispatch of `process_email` on the phase reached after extraction. -/
def phaseDispatch (low : List Char) (s : WState) : WState :=
  if s.conversation_phase = "greeting" then
    { s with conversation_phase := "gathering_info" }
  else if s.conversation_phase = "gathering_info" then
    gatheringInfoStep s
  else if s.conversation_phase = "clarifying_details" then
    clarifyingStep s
  else if s.conversation_phase = "preparing_proposal" then
    { s with conversation_phase := "proposal_sent" }
  else if s.conversation_phase = "proposal_sent" then
    proposalFeedbackStep low s
  else s

/-- `StatefulWandero.process_email`: extraction, then the phase-dependent
response.  When extraction raises (`false`), the exception propagates and
no response method runs; the partially updated state remains. -/
def processEmail (msg : List Char) (s : WState) : Bool × WState :=
  let r := extractInfo msg s
  if r.1 then (true, phaseDispatch (lowerL msg) r.2) else r

/-! ### Proposal pricing (`_proposal_response`, Mark_6.py lines 977-1003)

Python floats are modelled as `ℚ`; the arithmetic involved is exact in both.
`collected_info.get(key, default)` getters: the extraction rules only ever
store the matching constructor at each key, so the constructor fallback in
the getters is unreachable on states the code produces.
-/

def getNatD (k : String) (d : Nat) (c : List (String × Val)) : Nat :=
  match dictGet k c with
  | some (Val.vn n) => n
  | _ => d

def getAgesD (c : List (String × Val)) : List Nat :=
  match dictGet ("children_ages") c with
  | some (Val.vl l) => l
  | _ => [12, 8]

/-- The `Special dietary arrangements` line item: `100 if
self.state["special_requirements"] else 0`. -/
def dietaryItem (s : WState) : ℚ :=
  if s.special_requirements = [] then 0 else 100

/-- Total price computed by `_proposal_response`: `adults` at 1400 each,
every entry of `children_ages` at 1400 × (1 − 0.3), plus the fixed
services (transfers 200, insurance 180, guided tours 600) and the dietary
item. -/
def proposalTotal (s : WState) : ℚ :=
  let adults := getNatD ("adults") 2 s.collected_info
  let ages := getAgesD s.collected_info
  let adult_total : ℚ := (adults : ℚ) * 1400
  let child_total : ℚ := (ages.map (fun _ => (1400 : ℚ) * (1 - 3/10))).sum
  let services : ℚ := 200 + 180 + 600 + dietaryItem s
  adult_total + child_total + services

/-! ### Mark II negotiation discounts (`wandero_agent.py`)

`handle_negotiation` (lines 287-313; shadowed at runtime by the second
definition at line 602, which never touches the discount) adds
`min(0.1, max_discount - discounts_offered)` on a price concern while
`discounts_offered < max_discount`.  `handle_price_discussion`
(lines 487-553) instead **assigns** `min(0.1, max_discount)` when the
current package price is within 20% above the client budget and the
discount is below the maximum; when the price is more than 20% above the
budget the method raises (`max_discount` is referenced before assignment)
before reaching the discount update, leaving the discount unchanged.
-/

inductive NegStep where
  | nego (priceConcern : Bool)
  | priceDisc (currentPrice budgetMax : ℚ)

/-- Discount update of the line-287 `handle_negotiation`. -/
def negoDiscount (maxDiscount : ℚ) (priceConcern : Bool) (offered : ℚ) : ℚ :=
  if priceConcern ∧ offered < maxDiscount then
    offered + min (1/10) (maxDiscount - offered)
  else offered

/-- Discount update of `handle_price_discussion` (lines 497-538). -/
def priceDiscDiscount (maxDiscount currentPrice budgetMax offered : ℚ) : ℚ :=
  if ¬ currentPrice > budgetMax * (12/10) ∧ offered < maxDiscount then
    min (1/10) maxDiscount
  else offered

def negApply (maxDiscount : ℚ) (offered : ℚ) : NegStep → ℚ
  | NegStep.nego pc => negoDiscount maxDiscount pc offered
  | NegStep.priceDisc p b => priceDiscDiscount maxDiscount p b offered

/-- `discounts_offered` after a sequence of negotiation turns, starting
from the initial `0.0`. -/
def negRun (maxDiscount : ℚ) (steps : List NegStep) : ℚ :=
  steps.foldl (negApply maxDiscount) 0

/-! ### The generation gateways (`safe_llm_invoke`)

The external capability is an oracle giving the outcome of the n-th
`llm.invoke` call; the gateway returns the produced text together with the
number of calls it made.
-/

inductive LLMOutcome where
  | ok : String → LLMOutcome
  | err : String → LLMOutcome

/-- Rate-limit classification in Mark_6.py line 284. -/
def rateLimited6 (e : String) : Bool :=
  subOf (("429").toList) e.toList || subOf (("quota").toList) (lowerL e.toList) ||
    subOf (("rate").toList) (lowerL e.toList)

/-- Rate-limit classification in demo/client_simulator.py line 48 (no
`"rate"` test in this variant). -/
def rateLimitedDemo (e : String) : Bool :=
  subOf (("429").toList) e.toList || subOf (("quota").toList) (lowerL e.toList)

def fallback6Retry : String :=
  "I'm interested in planning our family trip to Chile. Please let me know what information you need from Sarah Johnson."

def fallbackOther : String :=
  "Thank you for your response. I'm interested in planning our trip."

def fallbackDemoRetry : String :=
  "I'd like to proceed with planning our family trip to Chile. Please let me know what information you need."

/-- `safe_llm_invoke` of Mark_6.py (lines 264-300): returned text and the
number of capability calls made. -/
def safeLlmInvoke6 (oracle : Nat → LLMOutcome) : String × Nat :=
  match oracle 0 with
  | LLMOutcome.ok r => (r, 1)
  | LLMOutcome.err e =>
    if rateLimited6 e then
      match oracle 1 with
      | LLMOutcome.ok r => (r, 2)
      | LLMOutcome.err _ => (fallback6Retry, 2)
    else (fallbackOther, 1)

/-- `safe_llm_invoke` of demo/client_simulator.py (lines 34-63). -/
def safeLlmInvokeDemo (oracle : Nat → LLMOutcome) : String × Nat :=
  match oracle 0 with
  | LLMOutcome.ok r => (r, 1)
  | LLMOutcome.err e =>
    if rateLimitedDemo e then
      match oracle 1 with
      | LLMOutcome.ok r => (r, 2)
      | LLMOutcome.err _ => (fallbackDemoRetry, 2)
    else (fallbackOther, 1)

/-! ### The parallel conversation engine (Mark_6.py lines 1303-1531)

`run_single_conversation` runs up to `max_rounds = 8` rounds; each round
either succeeds (two messages appended, breaking early if the Wandero
phase reached `booking_confirmed`), finds no client message (break), or
raises (the error is recorded and the loop continues).  The behaviour of
the graph/LLM during round n is abstracted as an oracle `Nat →
RoundEvent`.  `run_parallel_conversations` submits one future per
requested persona and appends each `future.result()` in submission
order.  The conversation id is
`thread_id = f"{persona_type}_{start_time.strftime(...)}"`, a pure
function of the persona type and the start timestamp (to the second).
-/

inductive RoundEvent where
  | ok : Bool → RoundEvent
  | noClient : RoundEvent
  | fail : String → RoundEvent

def roundError (n : Nat) (e : String) : String :=
  "Round " ++ toString n ++ " error: " ++ e

/-- The round loop: fuel counts remaining rounds, `rn` is the 0-based
round index; returns (rounds executed, messages, booking_confirmed,
errors). -/
def runRounds (events : Nat → RoundEvent) : Nat → Nat → Nat × Nat × Bool × List String
  | 0, _ => (0, 0, false, [])
  | fuel + 1, rn =>
    match events rn with
    | RoundEvent.noClient => (1, 0, false, [])
    | RoundEvent.ok confirmed =>
      if confirmed then (1, 2, true, [])
      else
        let r := runRounds events fuel (rn + 1)
        (r.1 + 1, r.2.1 + 2, r.2.2.1, r.2.2.2)
    | RoundEvent.fail e =>
      let r := runRounds events fuel (rn + 1)
      (r.1 + 1, r.2.1, r.2.2.1, roundError (rn + 1) e :: r.2.2.2)

structure ConvResult where
  persona_type : String
  thread_id : String
  total_messages : Nat
  booking_confirmed : Bool
  errors : List String
deriving DecidableEq

def threadId (pt startStamp : String) : String := pt ++ "_" ++ startStamp

def runSingleConversation (pt startStamp : String) (events : Nat → RoundEvent) :
    ConvResult :=
  let r := runRounds events 8 0
  { persona_type := pt
    thread_id := threadId pt startStamp
    total_messages := r.2.1
    booking_confirmed := r.2.2.1
    errors := r.2.2.2 }

/-- One requested conversation: persona type, start timestamp, round
behaviour. -/
structure ConvRequest where
  pt : String
  stamp : String
  events : Nat → RoundEvent

def runParallelConversations (convs : List ConvRequest) : List ConvResult :=
  convs.map (fun c => runSingleConversation c.pt c.stamp c.events)

/-! ### Mark II conversation-end check (`main.py` lines 134-165) -/

structure MIIState where
  messages : List (String × String)
  client_name : String
  interest_level : ℚ
  abandonment_risk : ℚ
  conversation_ended : Bool

def engagedPhrases : List String :=
  ["looking forward", "excited", "sounds good", "tell me more",
   "what about", "can you", "how much", "when can"]

/-- Body of the most recent message whose sender equals `client_name`. -/
def lastClientBody (s : MIIState) : Option String :=
  (s.messages.reverse.find? (fun m => m.1 == s.client_name)).map (fun m => m.2)

/-- `_check_conversation_end`: only end when already ended, when more than
10 messages accumulated, or on low interest with many messages; an
engaged (and non-empty, since Python tests the string's truthiness) last
client message skips the low-interest check.  The low-interest branch is
unreachable (it needs `> 10` messages, already caught above) — modelled
as written. -/
def checkConversationEnd (s : MIIState) : MIIState :=
  if s.conversation_ended then s
  else if 10 < s.messages.length then { s with conversation_ended := true }
  else
    let engaged :=
      match lastClientBody s with
      | some body =>
        body != "" && engagedPhrases.any (fun p => subOf p.toList (lowerL body.toList))
      | none => false
    if engaged then s
    else if s.interest_level < 1/5 ∧ 10 < s.messages.length then
      { s with abandonment_risk := 9/10, conversation_ended := true }
    else s

/-- The orchestrator loop: while not ended, apply the next agent turn and
then the end check.  `n` is the remaining superstep budget (the run is
invoked with `recursion_limit` 25), `k` the current turn index. -/
def orchRun (turns : Nat → MIIState → MIIState) : Nat → Nat → MIIState → MIIState
  | 0, _, s => s
  | n + 1, k, s =>
    if s.conversation_ended then s
    else orchRun turns n (k + 1) (checkConversationEnd (turns k s))

/-! ### Predicates and fixtures used by the theorems -/

/-- Correspondence between the `missing_info` field names and the
`collected_info` key that extraction stores when the field becomes known.
For `budget` and `special_requirements` these differ (`budget_range`,
`has_allergies`). -/
def fieldKeyPairs : List (String × String) :=
  [("travel_dates", "travel_dates"), ("group_size", "group_size"),
   ("children_ages", "children_ages"), ("budget", "budget_range"),
   ("special_requirements", "has_allergies")]

/-- Known/missing partition under the field-to-key correspondence: a field
is missing exactly when its collected key is absent. -/
def partitionInv (s : WState) : Prop :=
  ∀ p ∈ fieldKeyPairs, (p.1 ∈ s.missing_info ↔ dictGet p.2 s.collected_info = none)

/-- Every `collected_info` key that extraction can ever write. -/
def codeKeys : List String :=
  ["travel_dates", "adults", "group_size", "children_ages", "children_count",
   "budget_range", "has_allergies"]

/-- Lookup view of a dict; Python dict equality compares lookups, not
insertion order. -/
def getsFun (d : List (String × Val)) : String → Option Val := fun k => dictGet k d

/-- State equality up to dict insertion order (the notion of "same state"
Python `==` uses on `collected_info`). -/
def EqD (s t : WState) : Prop :=
  getsFun s.collected_info = getsFun t.collected_info ∧
  s.missing_info = t.missing_info ∧
  s.conversation_phase = t.conversation_phase ∧
  s.special_requirements = t.special_requirements

/-- The five field rules of `_extract_information`, in source order, as
state transformers for a fixed message. -/
def ruleFuns (msg : List Char) : List (WState → WState) :=
  [r_dates (lowerL msg), r_group (lowerL msg), r_ages (lowerL msg),
   r_budgetT msg, r_special (lowerL msg)]

def applyAll (fs : List (WState → WState)) (s : WState) : WState :=
  fs.foldl (fun s f => f s) s

/-- Whether the budget rule raises `ValueError` on this message (decided by
the text alone). -/
def budgetCrashes (msg : List Char) : Bool := (budgetDec msg).isNone

/-- Reachable values of `discounts_offered` for a given maximum. -/
def negInv (maxD o : ℚ) : Prop := o = 0 ∨ o = min (1/10) maxD ∨ o = maxD

/-- Five requested conversations (one failing, one breaking early, one
confirming) used to instantiate the batch-engine theorem. -/
def demoConvs : List ConvRequest :=
  [⟨"worried_parent", "20250101_120000", fun _ => RoundEvent.ok false⟩,
   ⟨"budget_backpacker", "20250101_120000", fun _ => RoundEvent.ok false⟩,
   ⟨"adventure_couple", "20250101_120001", fun _ => RoundEvent.ok true⟩,
   ⟨"luxury_seeker", "20250101_120001", fun _ => RoundEvent.fail "API quota exceeded"⟩,
   ⟨"corporate_planner", "20250101_120002", fun _ => RoundEvent.noClient⟩]

/-- A turn that appends one client message, used to instantiate the
orchestrator termination theorem. -/
def demoTurn : Nat → MIIState → MIIState :=
  fun _ s => { s with messages := (("client"), ("hello")) :: s.messages }

def initMII : MIIState :=
  { messages := []
    client_name := "Sarah Johnson"
    interest_level := 1/2
    abandonment_risk := 1/10
    conversation_ended := false }

/-! ### The demo `WanderoBot` (demo/wandero_bot.py lines 5-59)

Here `collected_info` and `missing_info` are Python sets of strings; we
model them as lists under membership (`set.add` appends when absent,
`set.discard` filters), and the invariant below only speaks about
membership, so the set iteration order is irrelevant. -/

structure BotState where
  conversation_phase : String
  collected_info : List String
  missing_info : List String
deriving DecidableEq

def setAdd (x : String) (l : List String) : List String :=
  if x ∈ l then l else l ++ [x]

def setDiscard (x : String) (l : List String) : List String :=
  l.filter (fun y => y != x)

def initBotState : BotState :=
  { conversation_phase := "initial"
    collected_info := []
    missing_info := ["travelers", "dates", "budget", "ages"] }

/-- One `collected_info.add(x); missing_info.discard(x)` block of
`process_message`, guarded by its keyword condition. -/
def botUpdate (cond : Bool) (x : String) (s : BotState) : BotState :=
  if cond then
    { s with collected_info := setAdd x s.collected_info
             missing_info := setDiscard x s.missing_info }
  else s

/-- State effect of `WanderoBot.process_message`: the phase machine and
the four keyword add/discard blocks; the allergy branch adds
`special_needs` to `collected_info` only (that name is never in
`missing_info`) and returns before the proposal check; the `$` test runs
on the raw message, the others on its lowercase form. -/
def botProcess (msg : List Char) (s : BotState) : BotState :=
  let low := lowerL msg
  if s.conversation_phase == "initial" && subOf (("chile").toList) low then
    { s with conversation_phase := "gathering_info" }
  else if s.conversation_phase == "gathering_info" then
    let s1 := botUpdate (subOf (("4 people").toList) low || subOf (("four").toList) low)
      ("travelers") s
    let s2 := botUpdate (subOf (("july").toList) low || subOf (("15-22").toList) low)
      ("dates") s1
    let s3 := botUpdate (subOf (("$").toList) msg || subOf (("budget").toList) low)
      ("budget") s2
    let s4 := botUpdate (subOf (("12").toList) low && subOf (("8").toList) low)
      ("ages") s3
    if subOf (("allergy").toList) low || subOf (("allergic").toList) low then
      { s4 with collected_info := setAdd ("special_needs") s4.collected_info }
    else if 3 ≤ s4.collected_info.length then
      { s4 with conversation_phase := "proposal_sent" }
    else s4
  else if s.conversation_phase == "proposal_sent" &&
      [("perfect").toList, ("great").toList, ("proceed").toList, ("book").toList].any
        (fun w => subOf w low) then
    { s with conversation_phase := "booking" }
  else s

def botFields : List String := ["travelers", "dates", "budget", "ages"]

/-- The partition the bot actually maintains: `collected_info` and
`missing_info` are disjoint and together cover the four-field set
{travelers, dates, budget, ages}; `missing_info` never leaves that set,
and the only collected entry outside it is `special_needs`. -/
def botInv (s : BotState) : Prop :=
  (∀ x ∈ s.collected_info, x ∉ s.missing_info) ∧
  (∀ x ∈ botFields, x ∈ s.collected_info ∨ x ∈ s.missing_info) ∧
  (∀ x ∈ s.missing_info, x ∈ botFields) ∧
  (∀ x ∈ s.collected_info, x ∈ botFields ∨ x = "special_needs")

/-- The bot state after the initial Chile inquiry: phase moved to
`gathering_info`, info sets untouched. -/
def gatherBot : BotState :=
  { initBotState with conversation_phase := "gathering_info" }

/-! ### Mark II proposal pricing (`wandero_agent.py` lines 207-258, 454-465)

`present_proposal` prices the package as `base_price * group_size * 7`:
`base_price` from the company type, `group_size` parsed out of the
client's group description by `_extract_group_size`.  Nothing else of the
conversation state enters the price. -/

/-- First maximal digit run of the text, as a number (the
`re.findall` + `int(numbers[0])` fallback of `_extract_group_size`). -/
def firstNat : List Char → Option Nat
  | [] => none
  | c :: rest =>
    if c.isDigit then some (digitsToNat ((c :: rest).takeWhile Char.isDigit))
    else firstNat rest

/-- `WanderoAgent._extract_group_size` (lines 454-465). -/
def extractGroupSize (gd : List Char) : Nat :=
  let low := lowerL gd
  if subOf (("solo").toList) low then 1
  else if subOf (("couple").toList) low || subOf (("two").toList) low then 2
  else if subOf (("family").toList) low then 4
  else (firstNat gd).getD 1

/-- Base price by company type (`self.company_data.get('type')`; a company
without the key falls to the default branch). -/
def basePrice (ctype : String) : Nat :=
  if ctype = "luxury" then 800
  else if ctype = "adventure" then 350
  else if ctype = "family" then 450
  else 300

/-- The pieces of the Mark II `ConversationState` a proposal price could
plausibly consult; `present_proposal` reads only `client_group_size`. -/
structure MIIPropState where
  client_group_size : List Char
  client_special_requirements : List String
  client_children_ages : List Nat
deriving DecidableEq

/-- `total_price` computed by `present_proposal` (line 225). -/
def miiTotalPrice (ctype : String) (ps : MIIPropState) : Nat :=
  basePrice ctype * extractGroupSize ps.client_group_size * 7

/-! ### Crash-aware rule application (for the order-independence claim)

The budget rule can raise `ValueError`; a pass over the rules then stops
with `self.state` holding the updates of the rules already run.  `none`
from a rule means it raised without mutating (the budget rule's `int`
calls precede its dict assignment). -/

/-- The five field rules as fallible transformers, in source order. -/
def ruleFunsE (msg : List Char) : List (WState → Option WState) :=
  [fun s => some (r_dates (lowerL msg) s), fun s => some (r_group (lowerL msg) s),
   fun s => some (r_ages (lowerL msg) s), r_budget msg,
   fun s => some (r_special (lowerL msg) s)]

/-- Run fallible rules in order; a raise stops the pass with the state
reached so far and reports `false`. -/
def applyAllE (gs : List (WState → Option WState)) (s : WState) : WState × Bool :=
  match gs with
  | [] => (s, true)
  | g :: rest =>
    match g s with
    | some s2 => applyAllE rest s2
    | none => (s, false)

/-- The rule order with the budget rule moved to the front, used to
exhibit order dependence on a raising text. -/
def budgetFirstE (msg : List Char) : List (WState → Option WState) :=
  [r_budget msg, fun s => some (r_dates (lowerL msg) s),
   fun s => some (r_group (lowerL msg) s), fun s => some (r_ages (lowerL msg) s),
   fun s => some (r_special (lowerL msg) s)]

/-! ## Theorems -/

/-- C2: for every behaviour of the generation capability, both
`safe_llm_invoke` gateways return a string after at most two capability
calls; when the capability always fails with an error the gateway
classifies as a rate limit, exactly one retry happens (two calls in
total) and the deterministic fallback string is returned instead of
propagating the error. -/
theorem spec_c2_gateway_retry_bound :
    ∀ oracle : Nat → LLMOutcome,
      (safeLlmInvoke6 oracle).2 ≤ 2 ∧ (safeLlmInvokeDemo oracle).2 ≤ 2 ∧
      ((∀ n, ∃ e, oracle n = LLMOutcome.err e ∧ rateLimited6 e = true) →
        safeLlmInvoke6 oracle = (fallback6Retry, 2)) ∧
      ((∀ n, ∃ e, oracle n = LLMOutcome.err e ∧ rateLimitedDemo e = true) →
        safeLlmInvokeDemo oracle = (fallbackDemoRetry, 2)) := by
  intro oracle
  refine ⟨?_, ?_, ?_, ?_⟩
  · unfold safeLlmInvoke6
    cases oracle 0 with
    | ok r => simp
    | err e =>
      by_cases hr : rateLimited6 e
      · simp only [hr, if_true]
        cases oracle 1 <;> simp
      · simp [hr]
  · unfold safeLlmInvokeDemo
    cases oracle 0 with
    | ok r => simp
    | err e =>
      by_cases hr : rateLimitedDemo e
      · simp only [hr, if_true]
        cases oracle 1 <;> simp
      · simp [hr]
  · intro h
    obtain ⟨e0, he0, hr0⟩ := h 0
    obtain ⟨e1, he1, hr1⟩ := h 1
    simp [safeLlmInvoke6, he0, hr0, he1]
  · intro h
    obtain ⟨e0, he0, hr0⟩ := h 0
    obtain ⟨e1, he1, hr1⟩ := h 1
    simp [safeLlmInvokeDemo, he0, hr0, he1]

/-- Witness for C2: a capability that always fails with a `429` error is
rate limited for both classifiers, and both gateways return their
fallback after exactly two calls. -/
theorem spec_c2_gateway_retry_bound_witness :
    safeLlmInvoke6 (fun _ => LLMOutcome.err ("429")) = (fallback6Retry, 2) ∧
    safeLlmInvokeDemo (fun _ => LLMOutcome.err ("429")) = (fallbackDemoRetry, 2) :=
  ⟨(spec_c2_gateway_retry_bound (fun _ => LLMOutcome.err ("429"))).2.2.1
      (fun _ => ⟨"429", rfl, by decide⟩),
   (spec_c2_gateway_retry_bound (fun _ => LLMOutcome.err ("429"))).2.2.2
      (fun _ => ⟨"429", rfl, by decide⟩)⟩

/-- C6: the scenario text carrying a family-of-4 phrase, a July date range
and a dollar budget range, extracted once from the initial all-missing
state, leaves exactly `children_ages` and `special_requirements` missing
(group size, dates and budget become known). -/
theorem spec_c6_scenario_extraction :
    (extractInfo
        (("Hello! We are a family of 4 planning to travel July 15-22. Our budget is $4000-6000.").toList)
        initWState).1 = true ∧
    (extractInfo
        (("Hello! We are a family of 4 planning to travel July 15-22. Our budget is $4000-6000.").toList)
        initWState).2.missing_info = ["children_ages", "special_requirements"] := by
  decide

/-- C10: on the input `July 15-22` — a date range with no currency amount
and no budget wording — one extraction call marks `budget` as known and
stores the two date numbers as the budget range `(15, 22)` (the budget
regex `\$?([\d,]+)\s*[-to]+\s*\$?([\d,]+)` matches any hyphenated number
pair). -/
theorem spec_c10_date_range_sets_budget :
    dictGet ("budget_range")
        (extractInfo (("July 15-22").toList) initWState).2.collected_info =
      some (Val.vp 15 22) ∧
    (extractInfo (("July 15-22").toList) initWState).2.missing_info.contains ("budget")
      = false := by
  decide

/-- Summing a constant over a list multiplies by its length. -/
theorem sum_map_const_rat (l : List Nat) (c : ℚ) :
    (l.map (fun _ => c)).sum = c * l.length := by
  induction l with
  | nil => simp
  | cons a t ih => simp [ih]; ring

/-- Closed form of `proposalTotal`: 1400 per adult, 980 per listed child
age, 980 of fixed services, plus the dietary item. -/
theorem proposalTotal_formula (s : WState) :
    proposalTotal s =
      1400 * ((getNatD ("adults") 2 s.collected_info : ℚ)) +
        (1400 * (1 - 3/10)) * ((getAgesD s.collected_info).length : ℚ) +
        (200 + 180 + 600) + dietaryItem s := by
  simp only [proposalTotal]
  rw [sum_map_const_rat]
  ring

/-- Counterexample for C7.  Mark I: extracting `aged 30 and 40` plus
`allergies` (without `nut`) marks `special_requirements` as known while
leaving the requirements list empty, so the proposal omits the
special-dietary line item even though the field is known; moreover both
30- and 40-year-old "children" receive the 30% child discount (there is
no age threshold), and no per-day factor appears
(total 5740 = 2·1400 + 2·980 + 980).  Mark II: `present_proposal` prices
450 × 4 × 7 = 12600 for a family-type company and a family group — the
total is identical with a non-empty special-requirements list and
children aged 5 and 8 as with no special requirements and "children"
aged 30 and 40, so no dietary add-on, no other add-on and no
age-thresholded child discount enters the price. -/
theorem spec_c7_counterexample :
    (extractInfo (("Our children are aged 30 and 40 and we have allergies").toList)
        initWState).2.missing_info.contains ("special_requirements") = false ∧
    dietaryItem
      (extractInfo (("Our children are aged 30 and 40 and we have allergies").toList)
        initWState).2 = 0 ∧
    dictGet ("children_ages")
      (extractInfo (("Our children are aged 30 and 40 and we have allergies").toList)
        initWState).2.collected_info = some (Val.vl [30, 40]) ∧
    proposalTotal
      (extractInfo (("Our children are aged 30 and 40 and we have allergies").toList)
        initWState).2 = 5740 ∧
    miiTotalPrice ("family")
      ⟨(("family of 4").toList), ["nut allergy"], [5, 8]⟩ = 12600 ∧
    miiTotalPrice ("family")
        ⟨(("family of 4").toList), ["nut allergy"], [5, 8]⟩
      = miiTotalPrice ("family") ⟨(("family of 4").toList), [], [30, 40]⟩ := by
  have hs :
      (extractInfo (("Our children are aged 30 and 40 and we have allergies").toList)
        initWState).2 =
      { collected_info :=
          [(("children_ages"), Val.vl [30, 40]), (("children_count"), Val.vn 2),
           (("has_allergies"), Val.vb true)]
        missing_info := ["travel_dates", "group_size", "budget"]
        conversation_phase := "greeting"
        special_requirements := [] } := by decide
  rw [hs]
  refine ⟨by decide, ?_, by decide, ?_, by decide, by decide⟩
  · simp [dietaryItem]
  · rw [proposalTotal_formula]
    have h1 : getNatD ("adults") 2
        [(("children_ages"), Val.vl [30, 40]), (("children_count"), Val.vn 2),
         (("has_allergies"), Val.vb true)] = 2 := by decide
    have h2 : getAgesD
        [(("children_ages"), Val.vl [30, 40]), (("children_count"), Val.vn 2),
         (("has_allergies"), Val.vb true)] = [30, 40] := by decide
    rw [h1, h2]
    norm_num [dietaryItem]

/-- C7 as amended.  Mark I (`_proposal_response`): the proposal total is
1400 per adult plus 1400 × (1 − 0.3) for **every** entry of
`children_ages` (no age threshold and no per-day factor), plus the fixed
add-ons 200 + 180 + 600, plus the special-dietary item, which is charged
exactly when the `special_requirements` **list** is non-empty — not when
the `special_requirements` field is known.  Mark II
(`present_proposal`): the total is `base_price(company type) ×
extracted group size × 7` with no add-on line items at all; in
particular it depends only on the group-size description, never on the
special requirements or the children's ages (so no dietary add-on and no
child discount exist on this path either). -/
theorem spec_c7_amended_pricing (s : WState) :
    (proposalTotal s =
      1400 * ((getNatD ("adults") 2 s.collected_info : ℚ)) +
        (1400 * (1 - 3/10)) * ((getAgesD s.collected_info).length : ℚ) +
        (200 + 180 + 600) + dietaryItem s ∧
      (dietaryItem s ≠ 0 ↔ s.special_requirements ≠ [])) ∧
    (∀ ctype : String, ∀ ps : MIIPropState,
      miiTotalPrice ctype ps
        = basePrice ctype * extractGroupSize ps.client_group_size * 7 ∧
      ∀ qs : MIIPropState, ps.client_group_size = qs.client_group_size →
        miiTotalPrice ctype ps = miiTotalPrice ctype qs) := by
  refine ⟨⟨proposalTotal_formula s, ?_⟩, ?_⟩
  · unfold dietaryItem
    by_cases h : s.special_requirements = [] <;> simp [h]
  · intro ctype ps
    refine ⟨rfl, ?_⟩
    intro qs hq
    unfold miiTotalPrice
    rw [hq]

/-- Every reachable discount is one of 0, min(0.1, max), max. -/
theorem negInv_apply (maxD : ℚ) (h1 : maxD ≤ 1/5) (o : ℚ)
    (ho : negInv maxD o) (st : NegStep) : negInv maxD (negApply maxD o st) := by
  cases st with
  | nego pc =>
    simp only [negApply, negoDiscount]
    split_ifs with hg
    · rcases ho with rfl | rfl | rfl
      · right; left; rw [zero_add, sub_zero]
      · by_cases hm : (1/10 : ℚ) ≤ maxD
        · rw [min_eq_left hm]
          rw [min_eq_left hm] at hg
          rw [min_eq_right (by linarith : maxD - 1/10 ≤ 1/10)]
          right; right; ring
        · rw [min_eq_right (le_of_not_le hm)] at hg
          exact absurd hg.2 (lt_irrefl _)
      · exact absurd hg.2 (lt_irrefl _)
    · exact ho
  | priceDisc p b =>
    simp only [negApply, priceDiscDiscount]
    split_ifs with hg
    · right; left; rfl
    · exact ho

/-- Reachable discounts are bounded by the configured maximum. -/
theorem negInv_le (maxD o : ℚ) (h0 : 0 ≤ maxD) (ho : negInv maxD o) : o ≤ maxD := by
  rcases ho with rfl | rfl | rfl
  · exact h0
  · exact min_le_right _ _
  · exact le_refl _

/-- Neither discount operation ever decreases a reachable discount. -/
theorem negApply_mono (maxD o : ℚ) (h0 : 0 ≤ maxD) (ho : negInv maxD o) (st : NegStep) :
    o ≤ negApply maxD o st := by
  cases st with
  | nego pc =>
    simp only [negApply, negoDiscount]
    split_ifs with hg
    · have hmin : (0:ℚ) ≤ min (1/10) (maxD - o) :=
        le_min (by norm_num) (by linarith [hg.2])
      linarith
    · exact le_refl _
  | priceDisc p b =>
    simp only [negApply, priceDiscDiscount]
    split_ifs with hg
    · rcases ho with rfl | rfl | rfl
      · exact le_min (by norm_num) h0
      · exact le_refl _
      · exact absurd hg.2 (lt_irrefl _)
    · exact le_refl _

/-- The invariant holds after any sequence of negotiation turns. -/
theorem negRun_inv (maxD : ℚ) (h1 : maxD ≤ 1/5) (steps : List NegStep) :
    negInv maxD (negRun maxD steps) := by
  suffices h : ∀ o, negInv maxD o → negInv maxD (steps.foldl (negApply maxD) o) from
    h 0 (Or.inl rfl)
  induction steps with
  | nil => intro o ho; exact ho
  | cons st t ih => intro o ho; exact ih _ (negInv_apply maxD h1 o ho st)

/-- Counterexample for C3: with `max_discount = 0.15`, after one
`handle_price_discussion` call the discount is 0.1; a second call (price
within budget, discount still below the maximum) grants zero, although
the remaining headroom is 0.05 and the claimed grant
`min(increment, headroom)` is 0.05 ≠ 0. -/
theorem spec_c3_counterexample :
    negRun (3/20) [NegStep.priceDisc 1000 1000] = 1/10 ∧
    negRun (3/20) [NegStep.priceDisc 1000 1000, NegStep.priceDisc 1000 1000] = 1/10 ∧
    min ((1:ℚ)/10) (3/20 - 1/10) = 1/20 ∧ ((1:ℚ)/20) ≠ 0 := by
  refine ⟨?_, ?_, by norm_num, by norm_num⟩ <;>
    norm_num [negRun, negApply, priceDiscDiscount]

/-- C3 as amended: for a company maximum discount in [0, 0.2] (all four
configured companies), `discounts_offered` is non-decreasing under any
sequence of `handle_negotiation` / `handle_price_discussion` turns from
its initial 0.0 and never exceeds the maximum; the `handle_negotiation`
price-concern branch grants exactly `min(0.1, headroom)`, but
`handle_price_discussion` instead assigns `min(0.1, max_discount)`, which
can grant strictly less than the remaining headroom (see the
counterexample), and the class's second `handle_negotiation` definition —
the one actually dispatched at runtime — never changes the discount. -/
theorem spec_c3_amended_monotone_bounded (maxD : ℚ) (h0 : 0 ≤ maxD) (h1 : maxD ≤ 1/5) :
    (∀ steps st, negRun maxD steps ≤ negRun maxD (steps ++ [st])) ∧
    (∀ steps, negRun maxD steps ≤ maxD) ∧
    (∀ o : ℚ, o < maxD → negoDiscount maxD true o = o + min (1/10) (maxD - o)) := by
  refine ⟨?_, ?_, ?_⟩
  · intro steps st
    have hrw : negRun maxD (steps ++ [st]) = negApply maxD (negRun maxD steps) st := by
      simp [negRun, List.foldl_append]
    rw [hrw]
    exact negApply_mono maxD _ h0 (negRun_inv maxD h1 steps) st
  · intro steps
    exact negInv_le maxD _ h0 (negRun_inv maxD h1 steps)
  · intro o ho
    simp [negoDiscount, ho]

/-- Witness for C3 as amended, at the configured maximum 0.15. -/
theorem spec_c3_amended_witness :
    (∀ steps st, negRun (3/20) steps ≤ negRun (3/20) (steps ++ [st])) ∧
    (∀ steps, negRun (3/20) steps ≤ 3/20) ∧
    (∀ o : ℚ, o < 3/20 → negoDiscount (3/20) true o = o + min (1/10) (3/20 - o)) :=
  spec_c3_amended_monotone_bounded (3/20) (by norm_num) (by norm_num)

/-- Lookup after a dict write. -/
theorem dictGet_dictSet (k k1 : String) (v : Val) (d : List (String × Val)) :
    dictGet k (dictSet k1 v d) = if k1 = k then some v else dictGet k d := by
  induction d with
  | nil => simp [dictSet, dictGet]
  | cons p t ih =>
    obtain ⟨k2, v2⟩ := p
    by_cases h2 : k2 = k1
    · subst h2
      by_cases h : k2 = k <;> simp [dictSet, dictGet, h, ih]
    · by_cases h : k2 = k
      · subst h
        simp [dictSet, dictGet, h2, Ne.symm h2]
      · simp [dictSet, dictGet, h2, h, ih]

/-- Lookup unchanged by a write at a different key. -/
theorem dictGet_dictSet_ne (k k1 : String) (v : Val) (d : List (String × Val))
    (h : k1 ≠ k) : dictGet k (dictSet k1 v d) = dictGet k d := by
  rw [dictGet_dictSet, if_neg h]

theorem r_dates_phase (low : List Char) (s : WState) :
    (r_dates low s).conversation_phase = s.conversation_phase := by
  unfold r_dates
  cases datesDec low <;> rfl

theorem r_group_phase (low : List Char) (s : WState) :
    (r_group low s).conversation_phase = s.conversation_phase := by
  unfold r_group
  cases groupDec low <;> rfl

theorem r_ages_phase (low : List Char) (s : WState) :
    (r_ages low s).conversation_phase = s.conversation_phase := by
  unfold r_ages
  cases agesDec low <;> rfl

theorem r_special_phase (low : List Char) (s : WState) :
    (r_special low s).conversation_phase = s.conversation_phase := by
  simp only [r_special]
  split_ifs <;> rfl

theorem r_budget_phase_of (msg : List Char) (s t : WState)
    (h : r_budget msg s = some t) :
    t.conversation_phase = s.conversation_phase := by
  unfold r_budget at h
  rcases hb : budgetDec msg with - | (- | ⟨m, M⟩) <;> rw [hb] at h
  · exact absurd h (by simp)
  · simp at h
    rw [← h]
  · simp at h
    rw [← h]
    rfl

theorem r_dates_budgetKey (low : List Char) (s : WState) :
    dictGet ("budget") (r_dates low s).collected_info =
      dictGet ("budget") s.collected_info := by
  unfold r_dates
  cases datesDec low
  · rfl
  · simp only [setKV, List.foldl]
    rw [dictGet_dictSet_ne _ _ _ _ (by decide)]

theorem r_group_budgetKey (low : List Char) (s : WState) :
    dictGet ("budget") (r_group low s).collected_info =
      dictGet ("budget") s.collected_info := by
  unfold r_group groupDec
  split_ifs <;>
    simp only [setKV, List.foldl] <;>
    repeat rw [dictGet_dictSet_ne _ _ _ _ (by decide)]

theorem r_ages_budgetKey (low : List Char) (s : WState) :
    dictGet ("budget") (r_ages low s).collected_info =
      dictGet ("budget") s.collected_info := by
  unfold r_ages
  cases agesDec low
  · rfl
  · simp only [setKV, List.foldl]
    repeat rw [dictGet_dictSet_ne _ _ _ _ (by decide)]

theorem r_special_budgetKey (low : List Char) (s : WState) :
    dictGet ("budget") (r_special low s).collected_info =
      dictGet ("budget") s.collected_info := by
  simp only [r_special]
  split_ifs <;>
    first
      | rfl
      | (exact dictGet_dictSet_ne _ _ _ _ (by decide))

theorem r_budget_budgetKey_of (msg : List Char) (s t : WState)
    (h : r_budget msg s = some t) :
    dictGet ("budget") t.collected_info = dictGet ("budget") s.collected_info := by
  unfold r_budget at h
  rcases hb : budgetDec msg with - | (- | ⟨m, M⟩) <;> rw [hb] at h
  · exact absurd h (by simp)
  · simp at h
    rw [← h]
  · simp at h
    rw [← h]
    simp only [setKV, List.foldl]
    rw [dictGet_dictSet_ne _ _ _ _ (by decide)]

/-- `_update_phase` never fires on states without a `"budget"` key — and
extraction only ever stores `"budget_range"`, so on every state the code
reaches it is a no-op. -/
theorem updatePhase_noop (s : WState)
    (hb : dictGet ("budget") s.collected_info = none) : updatePhase s = s := by
  unfold updatePhase
  simp [hb]

/-- Counterexample for C9: from a gathering-info state with all five
fields missing, a message giving only dates and budget leaves three
fields missing (`group_size`, `children_ages`, `special_requirements`),
yet the phase moves to `clarifying_details`, because
`_gathering_info_response` counts only its four promptable fields
(`group_size` is not one) and moves on `≤ 2`. -/
theorem spec_c9_counterexample :
    (processEmail (("We will travel July 15-20 and our budget is $3000-4000").toList)
        { initWState with conversation_phase := "gathering_info" }).2.conversation_phase
      = "clarifying_details" ∧
    (processEmail (("We will travel July 15-20 and our budget is $3000-4000").toList)
        { initWState with conversation_phase := "gathering_info" }).2.missing_info
      = ["group_size", "children_ages", "special_requirements"] := by
  decide

/-- C9 as amended: in phase `gathering_info` (on any state without the
never-written `"budget"` collected key), processing a message moves the
phase to `clarifying_details` exactly when extraction succeeds and at
most two of the four promptable fields (`children_ages`, `budget`,
`travel_dates`, `special_requirements` — `group_size` is not counted)
remain missing afterwards. -/
theorem spec_c9_amended_transition (msg : List Char) (s : WState)
    (hp : s.conversation_phase = "gathering_info")
    (hb : dictGet ("budget") s.collected_info = none) :
    ((processEmail msg s).2.conversation_phase = "clarifying_details") ↔
      ((extractInfo msg s).1 = true ∧
        (missingItems (extractInfo msg s).2).length ≤ 2) := by
  have h3p :
      (r_ages (lowerL msg) (r_group (lowerL msg) (r_dates (lowerL msg) s))).conversation_phase
        = "gathering_info" := by
    rw [r_ages_phase, r_group_phase, r_dates_phase, hp]
  have h3b :
      dictGet ("budget")
        (r_ages (lowerL msg) (r_group (lowerL msg) (r_dates (lowerL msg) s))).collected_info
        = none := by
    rw [r_ages_budgetKey, r_group_budgetKey, r_dates_budgetKey]
    exact hb
  cases hbud :
      r_budget msg (r_ages (lowerL msg) (r_group (lowerL msg) (r_dates (lowerL msg) s))) with
  | none =>
    have hE : extractInfo msg s =
        (false, r_ages (lowerL msg) (r_group (lowerL msg) (r_dates (lowerL msg) s))) := by
      simp only [extractInfo]
      rw [hbud]
    rw [hE]
    simp only [processEmail, hE]
    refine iff_of_false ?_ (by simp)
    simp only [Bool.false_eq_true, if_false]
    rw [h3p]
    decide
  | some s4 =>
    have h4p : s4.conversation_phase = "gathering_info" := by
      rw [r_budget_phase_of _ _ _ hbud, h3p]
    have h4b : dictGet ("budget") s4.collected_info = none := by
      rw [r_budget_budgetKey_of _ _ _ hbud]
      exact h3b
    have h5p : (r_special (lowerL msg) s4).conversation_phase = "gathering_info" := by
      rw [r_special_phase, h4p]
    have h5b : dictGet ("budget") (r_special (lowerL msg) s4).collected_info = none := by
      rw [r_special_budgetKey]
      exact h4b
    have hup : updatePhase (r_special (lowerL msg) s4) = r_special (lowerL msg) s4 :=
      updatePhase_noop _ h5b
    have hE : extractInfo msg s = (true, r_special (lowerL msg) s4) := by
      simp only [extractInfo]
      rw [hbud]
      dsimp only
      rw [hup]
    rw [hE]
    simp only [processEmail, hE, if_true]
    simp only [phaseDispatch]
    rw [h5p]
    rw [if_neg (by decide), if_pos rfl]
    simp only [gatheringInfoStep]
    by_cases hc : (missingItems (r_special (lowerL msg) s4)).length ≤ 2
    · rw [if_pos hc]
      refine iff_of_true rfl ⟨by simp, hc⟩
    · rw [if_neg hc]
      rw [h5p]
      exact iff_of_false (by decide) (fun h => hc h.2)

/-- Witness for C9 as amended: the initial state (set to phase
`gathering_info`) has no `"budget"` key, and the transition criterion
evaluates concretely on the counterexample message. -/
theorem spec_c9_amended_transition_witness :
    ((processEmail (("We will travel July 15-20 and our budget is $3000-4000").toList)
        { initWState with conversation_phase := "gathering_info" }).2.conversation_phase
      = "clarifying_details") ↔
      ((extractInfo (("We will travel July 15-20 and our budget is $3000-4000").toList)
          { initWState with conversation_phase := "gathering_info" }).1 = true ∧
        (missingItems
          (extractInfo (("We will travel July 15-20 and our budget is $3000-4000").toList)
            { initWState with conversation_phase := "gathering_info" }).2).length ≤ 2) :=
  spec_c9_amended_transition _ _ rfl (by decide)

/-- Filtering away one name keeps membership of the others. -/
theorem mem_filter_ne (a b : String) (l : List String) (hab : a ≠ b) :
    (a ∈ l.filter (fun x => x != b)) ↔ a ∈ l := by
  simp [List.mem_filter, bne_iff_ne, hab]

/-- The filtered-out name is gone. -/
theorem not_mem_filter_self (b : String) (l : List String) :
    ¬ (b ∈ l.filter (fun x => x != b)) := by
  simp [List.mem_filter]

theorem partitionInv_r_dates (low : List Char) (s : WState) (h : partitionInv s) :
    partitionInv (r_dates low s) := by
  unfold r_dates
  cases datesDec low with
  | none => exact h
  | some v =>
    intro p hp
    have hold := h p hp
    fin_cases hp
    · simp only [setKV, List.foldl]
      constructor
      · intro hmem
        exact absurd hmem (not_mem_filter_self _ _)
      · intro hget
        rw [dictGet_dictSet] at hget
        simp at hget
    · simp only [setKV, List.foldl]
      rw [mem_filter_ne _ _ _ (by decide), dictGet_dictSet_ne _ _ _ _ (by decide)]
      exact hold
    · simp only [setKV, List.foldl]
      rw [mem_filter_ne _ _ _ (by decide), dictGet_dictSet_ne _ _ _ _ (by decide)]
      exact hold
    · simp only [setKV, List.foldl]
      rw [mem_filter_ne _ _ _ (by decide), dictGet_dictSet_ne _ _ _ _ (by decide)]
      exact hold
    · simp only [setKV, List.foldl]
      rw [mem_filter_ne _ _ _ (by decide), dictGet_dictSet_ne _ _ _ _ (by decide)]
      exact hold

theorem partitionInv_r_group (low : List Char) (s : WState) (h : partitionInv s) :
    partitionInv (r_group low s) := by
  unfold r_group groupDec
  split_ifs
  · intro p hp
    have hold := h p hp
    fin_cases hp
    · simp only [setKV, List.foldl]
      rw [mem_filter_ne _ _ _ (by decide), dictGet_dictSet_ne _ _ _ _ (by decide),
        dictGet_dictSet_ne _ _ _ _ (by decide)]
      exact hold
    · simp only [setKV, List.foldl]
      constructor
      · intro hmem
        exact absurd hmem (not_mem_filter_self _ _)
      · intro hget
        rw [dictGet_dictSet] at hget
        simp at hget
    · simp only [setKV, List.foldl]
      rw [mem_filter_ne _ _ _ (by decide), dictGet_dictSet_ne _ _ _ _ (by decide),
        dictGet_dictSet_ne _ _ _ _ (by decide)]
      exact hold
    · simp only [setKV, List.foldl]
      rw [mem_filter_ne _ _ _ (by decide), dictGet_dictSet_ne _ _ _ _ (by decide),
        dictGet_dictSet_ne _ _ _ _ (by decide)]
      exact hold
    · simp only [setKV, List.foldl]
      rw [mem_filter_ne _ _ _ (by decide), dictGet_dictSet_ne _ _ _ _ (by decide),
        dictGet_dictSet_ne _ _ _ _ (by decide)]
      exact hold
  · intro p hp
    have hold := h p hp
    fin_cases hp
    · simp only [setKV, List.foldl]
      rw [mem_filter_ne _ _ _ (by decide), dictGet_dictSet_ne _ _ _ _ (by decide)]
      exact hold
    · simp only [setKV, List.foldl]
      constructor
      · intro hmem
        exact absurd hmem (not_mem_filter_self _ _)
      · intro hget
        rw [dictGet_dictSet] at hget
        simp at hget
    · simp only [setKV, List.foldl]
      rw [mem_filter_ne _ _ _ (by decide), dictGet_dictSet_ne _ _ _ _ (by decide)]
      exact hold
    · simp only [setKV, List.foldl]
      rw [mem_filter_ne _ _ _ (by decide), dictGet_dictSet_ne _ _ _ _ (by decide)]
      exact hold
    · simp only [setKV, List.foldl]
      rw [mem_filter_ne _ _ _ (by decide), dictGet_dictSet_ne _ _ _ _ (by decide)]
      exact hold
  · exact h

theorem partitionInv_r_ages (low : List Char) (s : WState) (h : partitionInv s) :
    partitionInv (r_ages low s) := by
  unfold r_ages
  cases agesDec low with
  | none => exact h
  | some ags =>
    intro p hp
    have hold := h p hp
    fin_cases hp
    · simp only [setKV, List.foldl]
      rw [mem_filter_ne _ _ _ (by decide), dictGet_dictSet_ne _ _ _ _ (by decide),
        dictGet_dictSet_ne _ _ _ _ (by decide)]
      exact hold
    · simp only [setKV, List.foldl]
      rw [mem_filter_ne _ _ _ (by decide), dictGet_dictSet_ne _ _ _ _ (by decide),
        dictGet_dictSet_ne _ _ _ _ (by decide)]
      exact hold
    · simp only [setKV, List.foldl]
      constructor
      · intro hmem
        exact absurd hmem (not_mem_filter_self _ _)
      · intro hget
        rw [dictGet_dictSet_ne _ _ _ _ (by decide), dictGet_dictSet] at hget
        simp at hget
    · simp only [setKV, List.foldl]
      rw [mem_filter_ne _ _ _ (by decide), dictGet_dictSet_ne _ _ _ _ (by decide),
        dictGet_dictSet_ne _ _ _ _ (by decide)]
      exact hold
    · simp only [setKV, List.foldl]
      rw [mem_filter_ne _ _ _ (by decide), dictGet_dictSet_ne _ _ _ _ (by decide),
        dictGet_dictSet_ne _ _ _ _ (by decide)]
      exact hold

theorem partitionInv_r_budget (msg : List Char) (s t : WState)
    (hbud : r_budget msg s = some t) (h : partitionInv s) : partitionInv t := by
  unfold r_budget at hbud
  rcases hb : budgetDec msg with - | (- | ⟨m, M⟩) <;> rw [hb] at hbud
  · exact absurd hbud (by simp)
  · simp at hbud
    rw [← hbud]
    exact h
  · simp at hbud
    rw [← hbud]
    intro p hp
    have hold := h p hp
    fin_cases hp
    · simp only [setKV, List.foldl]
      rw [mem_filter_ne _ _ _ (by decide), dictGet_dictSet_ne _ _ _ _ (by decide)]
      exact hold
    · simp only [setKV, List.foldl]
      rw [mem_filter_ne _ _ _ (by decide), dictGet_dictSet_ne _ _ _ _ (by decide)]
      exact hold
    · simp only [setKV, List.foldl]
      rw [mem_filter_ne _ _ _ (by decide), dictGet_dictSet_ne _ _ _ _ (by decide)]
      exact hold
    · simp only [setKV, List.foldl]
      constructor
      · intro hmem
        exact absurd hmem (not_mem_filter_self _ _)
      · intro hget
        rw [dictGet_dictSet] at hget
        simp at hget
    · simp only [setKV, List.foldl]
      rw [mem_filter_ne _ _ _ (by decide), dictGet_dictSet_ne _ _ _ _ (by decide)]
      exact hold

theorem partitionInv_r_special (low : List Char) (s : WState)
    (hnd : s.missing_info.Nodup) (h : partitionInv s) :
    partitionInv (r_special low s) := by
  simp only [r_special]
  split_ifs with ha hn hc hc
  · -- allerg and nut, field still missing: erase it
    intro p hp
    have hold := h p hp
    fin_cases hp
    · rw [List.mem_erase_of_ne (by decide), dictGet_dictSet_ne _ _ _ _ (by decide)]
      exact hold
    · rw [List.mem_erase_of_ne (by decide), dictGet_dictSet_ne _ _ _ _ (by decide)]
      exact hold
    · rw [List.mem_erase_of_ne (by decide), dictGet_dictSet_ne _ _ _ _ (by decide)]
      exact hold
    · rw [List.mem_erase_of_ne (by decide), dictGet_dictSet_ne _ _ _ _ (by decide)]
      exact hold
    · constructor
      · intro hmem
        exact absurd hmem (hnd.not_mem_erase)
      · intro hget
        rw [dictGet_dictSet] at hget
        simp at hget
  · -- allerg and nut, field already known: no erase
    intro p hp
    have hold := h p hp
    fin_cases hp
    · rw [dictGet_dictSet_ne _ _ _ _ (by decide)]
      exact hold
    · rw [dictGet_dictSet_ne _ _ _ _ (by decide)]
      exact hold
    · rw [dictGet_dictSet_ne _ _ _ _ (by decide)]
      exact hold
    · rw [dictGet_dictSet_ne _ _ _ _ (by decide)]
      exact hold
    · constructor
      · intro hmem
        exact absurd hmem (by simpa using hc)
      · intro hget
        rw [dictGet_dictSet] at hget
        simp at hget
  · -- allerg without nut, field still missing
    intro p hp
    have hold := h p hp
    fin_cases hp
    · rw [List.mem_erase_of_ne (by decide), dictGet_dictSet_ne _ _ _ _ (by decide)]
      exact hold
    · rw [List.mem_erase_of_ne (by decide), dictGet_dictSet_ne _ _ _ _ (by decide)]
      exact hold
    · rw [List.mem_erase_of_ne (by decide), dictGet_dictSet_ne _ _ _ _ (by decide)]
      exact hold
    · rw [List.mem_erase_of_ne (by decide), dictGet_dictSet_ne _ _ _ _ (by decide)]
      exact hold
    · constructor
      · intro hmem
        exact absurd hmem (hnd.not_mem_erase)
      · intro hget
        rw [dictGet_dictSet] at hget
        simp at hget
  · -- allerg without nut, field already known
    intro p hp
    have hold := h p hp
    fin_cases hp
    · rw [dictGet_dictSet_ne _ _ _ _ (by decide)]
      exact hold
    · rw [dictGet_dictSet_ne _ _ _ _ (by decide)]
      exact hold
    · rw [dictGet_dictSet_ne _ _ _ _ (by decide)]
      exact hold
    · rw [dictGet_dictSet_ne _ _ _ _ (by decide)]
      exact hold
    · constructor
      · intro hmem
        exact absurd hmem (by simpa using hc)
      · intro hget
        rw [dictGet_dictSet] at hget
        simp at hget
  · exact h

theorem updatePhase_missing (s : WState) :
    (updatePhase s).missing_info = s.missing_info := by
  simp only [updatePhase]
  split_ifs <;> rfl

theorem updatePhase_collected (s : WState) :
    (updatePhase s).collected_info = s.collected_info := by
  simp only [updatePhase]
  split_ifs <;> rfl

theorem partitionInv_updatePhase (s : WState) (h : partitionInv s) :
    partitionInv (updatePhase s) := by
  intro p hp
  rw [updatePhase_missing, updatePhase_collected]
  exact h p hp

theorem nodup_r_dates (low : List Char) (s : WState) (hnd : s.missing_info.Nodup) :
    (r_dates low s).missing_info.Nodup := by
  unfold r_dates
  cases datesDec low
  · exact hnd
  · exact hnd.filter _

theorem nodup_r_group (low : List Char) (s : WState) (hnd : s.missing_info.Nodup) :
    (r_group low s).missing_info.Nodup := by
  unfold r_group
  cases groupDec low
  · exact hnd
  · exact hnd.filter _

theorem nodup_r_ages (low : List Char) (s : WState) (hnd : s.missing_info.Nodup) :
    (r_ages low s).missing_info.Nodup := by
  unfold r_ages
  cases agesDec low
  · exact hnd
  · exact hnd.filter _

theorem nodup_r_budget (msg : List Char) (s t : WState) (hbud : r_budget msg s = some t)
    (hnd : s.missing_info.Nodup) : t.missing_info.Nodup := by
  unfold r_budget at hbud
  rcases hb : budgetDec msg with - | (- | ⟨m, M⟩) <;> rw [hb] at hbud
  · exact absurd hbud (by simp)
  · simp at hbud
    rw [← hbud]
    exact hnd
  · simp at hbud
    rw [← hbud]
    exact hnd.filter _

theorem nodup_r_special (low : List Char) (s : WState) (hnd : s.missing_info.Nodup) :
    (r_special low s).missing_info.Nodup := by
  simp only [r_special]
  split_ifs <;> first | exact hnd | exact hnd.erase _

/-- An extraction step preserves distinctness of `missing_info` and the
known/missing partition (under the field-to-key correspondence). -/
theorem partitionInv_extract (msg : List Char) (s : WState)
    (hnd : s.missing_info.Nodup) (h : partitionInv s) :
    (extractInfo msg s).2.missing_info.Nodup ∧ partitionInv (extractInfo msg s).2 := by
  have hnd3 := nodup_r_ages (lowerL msg) _ (nodup_r_group (lowerL msg) _
    (nodup_r_dates (lowerL msg) s hnd))
  have h3 := partitionInv_r_ages (lowerL msg) _ (partitionInv_r_group (lowerL msg) _
    (partitionInv_r_dates (lowerL msg) s h))
  simp only [extractInfo]
  cases hbud :
      r_budget msg (r_ages (lowerL msg) (r_group (lowerL msg) (r_dates (lowerL msg) s))) with
  | none => exact ⟨hnd3, h3⟩
  | some s4 =>
    have hnd4 := nodup_r_budget msg _ _ hbud hnd3
    have h4 := partitionInv_r_budget msg _ _ hbud h3
    have hnd5 := nodup_r_special (lowerL msg) _ hnd4
    have h5 := partitionInv_r_special (lowerL msg) _ hnd4 h4
    dsimp only
    rw [updatePhase_missing]
    exact ⟨hnd5, partitionInv_updatePhase _ h5⟩

/-- Writing a key from `codeKeys` can only add keys from `codeKeys`. -/
theorem keydom_dictSet (k k1 : String) (v : Val) (c : List (String × Val))
    (hk1 : k1 ∈ codeKeys) :
    dictGet k (dictSet k1 v c) ≠ none → dictGet k c ≠ none ∨ k ∈ codeKeys := by
  rw [dictGet_dictSet]
  split_ifs with he
  · intro _
    right
    rw [← he]
    exact hk1
  · intro hne
    left
    exact hne

theorem keydom_r_dates (low : List Char) (k : String) (s : WState) :
    dictGet k (r_dates low s).collected_info ≠ none →
      dictGet k s.collected_info ≠ none ∨ k ∈ codeKeys := by
  unfold r_dates
  cases datesDec low
  · exact Or.inl
  · simp only [setKV, List.foldl]
    exact keydom_dictSet _ _ _ _ (by decide)

theorem keydom_r_group (low : List Char) (k : String) (s : WState) :
    dictGet k (r_group low s).collected_info ≠ none →
      dictGet k s.collected_info ≠ none ∨ k ∈ codeKeys := by
  unfold r_group groupDec
  split_ifs
  · simp only [setKV, List.foldl]
    intro hne
    rcases keydom_dictSet _ _ _ _ (by decide) hne with h1 | h1
    · exact keydom_dictSet _ _ _ _ (by decide) h1
    · exact Or.inr h1
  · simp only [setKV, List.foldl]
    exact keydom_dictSet _ _ _ _ (by decide)
  · exact Or.inl

theorem keydom_r_ages (low : List Char) (k : String) (s : WState) :
    dictGet k (r_ages low s).collected_info ≠ none →
      dictGet k s.collected_info ≠ none ∨ k ∈ codeKeys := by
  unfold r_ages
  cases agesDec low
  · exact Or.inl
  · simp only [setKV, List.foldl]
    intro hne
    rcases keydom_dictSet _ _ _ _ (by decide) hne with h1 | h1
    · exact keydom_dictSet _ _ _ _ (by decide) h1
    · exact Or.inr h1

theorem keydom_r_budget (msg : List Char) (k : String) (s t : WState)
    (hbud : r_budget msg s = some t) :
    dictGet k t.collected_info ≠ none →
      dictGet k s.collected_info ≠ none ∨ k ∈ codeKeys := by
  unfold r_budget at hbud
  rcases hb : budgetDec msg with - | (- | ⟨m, M⟩) <;> rw [hb] at hbud
  · exact absurd hbud (by simp)
  · simp at hbud
    rw [← hbud]
    exact Or.inl
  · simp at hbud
    rw [← hbud]
    simp only [setKV, List.foldl]
    exact keydom_dictSet _ _ _ _ (by decide)

theorem keydom_r_special (low : List Char) (k : String) (s : WState) :
    dictGet k (r_special low s).collected_info ≠ none →
      dictGet k s.collected_info ≠ none ∨ k ∈ codeKeys := by
  simp only [r_special]
  split_ifs <;>
    first
      | exact Or.inl
      | exact keydom_dictSet _ _ _ _ (by decide)

/-- Extraction never introduces a collected key outside `codeKeys`. -/
theorem keydom_extract (msg : List Char) (k : String) (s : WState) :
    dictGet k (extractInfo msg s).2.collected_info ≠ none →
      dictGet k s.collected_info ≠ none ∨ k ∈ codeKeys := by
  simp only [extractInfo]
  cases hbud :
      r_budget msg (r_ages (lowerL msg) (r_group (lowerL msg) (r_dates (lowerL msg) s))) with
  | none =>
    intro hne
    rcases keydom_r_ages _ _ _ hne with h1 | h1
    · rcases keydom_r_group _ _ _ h1 with h2 | h2
      · exact keydom_r_dates _ _ _ h2
      · exact Or.inr h2
    · exact Or.inr h1
  | some s4 =>
    dsimp only
    rw [updatePhase_collected]
    intro hne
    rcases keydom_r_special _ _ _ hne with h1 | h1
    · rcases keydom_r_budget _ _ _ _ hbud h1 with h2 | h2
      · rcases keydom_r_ages _ _ _ h2 with h3 | h3
        · rcases keydom_r_group _ _ _ h3 with h4 | h4
          · exact keydom_r_dates _ _ _ h4
          · exact Or.inr h4
        · exact Or.inr h3
      · exact Or.inr h2
    · exact Or.inr h1

/-- Membership after a set add. -/
theorem mem_setAdd (x y : String) (l : List String) :
    y ∈ setAdd x l ↔ y ∈ l ∨ y = x := by
  unfold setAdd
  split_ifs with h
  · constructor
    · exact Or.inl
    · rintro (hy | rfl)
      · exact hy
      · exact h
  · simp

/-- Membership after a set discard. -/
theorem mem_setDiscard (x y : String) (l : List String) :
    y ∈ setDiscard x l ↔ y ∈ l ∧ y ≠ x := by
  unfold setDiscard
  simp [List.mem_filter, bne_iff_ne]

/-- A guarded add/discard block on one of the four tracked fields keeps
the bot's partition. -/
theorem botInv_update (c : Bool) (x : String) (s : BotState)
    (hx : x ∈ botFields) (h : botInv s) : botInv (botUpdate c x s) := by
  unfold botUpdate
  split_ifs with hc
  · obtain ⟨h1, h2, h3, h4⟩ := h
    refine ⟨?_, ?_, ?_, ?_⟩
    · intro y hy hmem
      rw [mem_setAdd] at hy
      rw [mem_setDiscard] at hmem
      rcases hy with hy | rfl
      · exact h1 y hy hmem.1
      · exact hmem.2 rfl
    · intro y hyf
      rcases h2 y hyf with hcol | hm
      · exact Or.inl ((mem_setAdd x y _).mpr (Or.inl hcol))
      · by_cases hxy : y = x
        · exact Or.inl ((mem_setAdd x y _).mpr (Or.inr hxy))
        · exact Or.inr ((mem_setDiscard x y _).mpr ⟨hm, hxy⟩)
    · intro y hy
      exact h3 y ((mem_setDiscard x y _).mp hy).1
    · intro y hy
      rcases (mem_setAdd x y _).mp hy with hy2 | rfl
      · exact h4 y hy2
      · exact Or.inl hx
  · exact h

/-- Adding `special_needs` to the collected set keeps the bot's
partition: the name is outside the four-field set, so it can never be in
`missing_info`. -/
theorem botInv_addSpecial (s : BotState) (h : botInv s) :
    botInv { s with collected_info := setAdd ("special_needs") s.collected_info } := by
  obtain ⟨h1, h2, h3, h4⟩ := h
  refine ⟨?_, ?_, h3, ?_⟩
  · intro y hy hmem
    rcases (mem_setAdd _ y _).mp hy with hy2 | rfl
    · exact h1 y hy2 hmem
    · exact absurd (h3 _ hmem) (by decide)
  · intro y hyf
    rcases h2 y hyf with hcol | hm
    · exact Or.inl ((mem_setAdd _ y _).mpr (Or.inl hcol))
    · exact Or.inr hm
  · intro y hy
    rcases (mem_setAdd _ y _).mp hy with hy2 | rfl
    · exact h4 y hy2
    · exact Or.inr rfl

/-- `process_message` preserves the bot's partition. -/
theorem botInv_process (msg : List Char) (s : BotState) (h : botInv s) :
    botInv (botProcess msg s) := by
  have hu4 : botInv
      (botUpdate (subOf (("12").toList) (lowerL msg) && subOf (("8").toList) (lowerL msg))
        ("ages")
        (botUpdate (subOf (("$").toList) msg || subOf (("budget").toList) (lowerL msg))
          ("budget")
          (botUpdate (subOf (("july").toList) (lowerL msg) || subOf (("15-22").toList) (lowerL msg))
            ("dates")
            (botUpdate (subOf (("4 people").toList) (lowerL msg) || subOf (("four").toList) (lowerL msg))
              ("travelers") s)))) :=
    botInv_update _ _ _ (by decide)
      (botInv_update _ _ _ (by decide)
        (botInv_update _ _ _ (by decide)
          (botInv_update _ _ _ (by decide) h)))
  simp only [botProcess]
  split_ifs with h1 h2 h3 h4 h5
  · exact h
  · exact botInv_addSpecial _ hu4
  · exact hu4
  · exact hu4
  · exact h
  · exact h

/-- Counterexample for C4.  Mark I: extracting `$4000-6000` from the
initial state removes `budget` from `missing_info` but stores the
collected entry under the key `budget_range`, not `budget` — the field
removed from missing is not added to known under the same field name, so
taking known and missing literally over one name space, `budget` is in
neither.  Demo bot: its field set is {travelers, dates, budget, ages} —
`group_size` is on neither side of the partition even initially — and an
allergy message adds `special_needs` to the collected side only, a name
outside the claimed fixed field set that was never missing. -/
theorem spec_c4_counterexample :
    ((("budget") ∈ (extractInfo (("$4000-6000").toList) initWState).2.missing_info)
        = False) ∧
    dictGet ("budget")
        (extractInfo (("$4000-6000").toList) initWState).2.collected_info = none ∧
    dictGet ("budget_range")
        (extractInfo (("$4000-6000").toList) initWState).2.collected_info
      = some (Val.vp 4000 6000) ∧
    (("group_size") ∉ initBotState.collected_info ∧
      ("group_size") ∉ initBotState.missing_info) ∧
    (("special_needs") ∈
        (botProcess (("Jack has a nut allergy").toList) gatherBot).collected_info ∧
      ("special_needs") ∉
        ["travel_dates", "group_size", "children_ages", "budget", "special_requirements"] ∧
      ("special_needs") ∉
        (botProcess (("Jack has a nut allergy").toList) gatherBot).missing_info) := by
  refine ⟨?_, by decide, by decide, by decide, by decide⟩
  simp only [eq_iff_iff, iff_false]
  decide

/-- C4 as amended.  Mark I: under the field-to-key correspondence
`{travel_dates ↦ travel_dates, group_size ↦ group_size, children_ages ↦
children_ages, budget ↦ budget_range, special_requirements ↦
has_allergies}`, the initial state satisfies the partition (every field
missing, no key present), every extraction step — including a step whose
budget rule raises — preserves it together with distinctness of
`missing_info`, and extraction introduces no collected key outside the
seven keys the code writes (the auxiliary `adults` and `children_count`
appear in addition to the five field keys).  Demo bot: over its own
four-field set {travelers, dates, budget, ages}, collected and missing
are disjoint, together cover the four fields, missing never leaves the
set, and the only other collected entry is `special_needs`; this
invariant holds initially and is preserved by every `process_message`
step. -/
theorem spec_c4_amended_partition :
    (initWState.missing_info.Nodup ∧ partitionInv initWState) ∧
    (∀ msg s, s.missing_info.Nodup → partitionInv s →
      (extractInfo msg s).2.missing_info.Nodup ∧ partitionInv (extractInfo msg s).2) ∧
    (∀ msg k s, dictGet k (extractInfo msg s).2.collected_info ≠ none →
      dictGet k s.collected_info ≠ none ∨ k ∈ codeKeys) ∧
    (botInv initBotState ∧ ∀ msg s, botInv s → botInv (botProcess msg s)) := by
  refine ⟨⟨by decide, by unfold partitionInv; decide⟩, ?_, ?_, ?_, ?_⟩
  · intro msg s hnd h
    exact partitionInv_extract msg s hnd h
  · intro msg k s
    exact keydom_extract msg k s
  · unfold botInv
    decide
  · intro msg s h
    exact botInv_process msg s h

/-- Witness for C4 as amended: one step from the initial state on the
scenario message keeps the Mark I partition, and one bot step on an
allergy message keeps the bot invariant. -/
theorem spec_c4_amended_partition_witness :
    ((extractInfo
        (("Hello! We are a family of 4 planning to travel July 15-22. Our budget is $4000-6000.").toList)
        initWState).2.missing_info.Nodup ∧
      partitionInv
        (extractInfo
          (("Hello! We are a family of 4 planning to travel July 15-22. Our budget is $4000-6000.").toList)
          initWState).2) ∧
    botInv (botProcess (("Jack has a nut allergy").toList) gatherBot) :=
  ⟨spec_c4_amended_partition.2.1 _ initWState
      spec_c4_amended_partition.1.1 spec_c4_amended_partition.1.2,
   spec_c4_amended_partition.2.2.2.2 _ gatherBot (by unfold botInv; decide)⟩

/-- Re-writing an existing binding is a no-op. -/
theorem dictSet_same (k : String) (v : Val) (d : List (String × Val))
    (h : dictGet k d = some v) : dictSet k v d = d := by
  induction d with
  | nil => simp [dictGet] at h
  | cons p t ih =>
    obtain ⟨k1, v1⟩ := p
    by_cases h1 : k1 = k
    · subst h1
      simp [dictGet] at h
      simp [dictSet, h]
    · simp [dictGet, h1] at h
      simp [dictSet, h1, ih h]

/-- Filtering away an absent name is a no-op. -/
theorem filter_ne_of_not_mem (a : String) (l : List String) (h : a ∉ l) :
    l.filter (fun x => x != a) = l := by
  induction l with
  | nil => rfl
  | cons b t ih =>
    simp only [List.mem_cons, not_or] at h
    have hb : (b != a) = true := bne_iff_ne.mpr (Ne.symm h.1)
    simp [List.filter, hb, ih h.2]

/-- Re-running writes of already-present values together with removal of an
already-removed name is a no-op. -/
theorem setKV_self (ks : List (String × Val)) (k : String) (t : WState)
    (hks : ∀ p ∈ ks, dictGet p.1 t.collected_info = some p.2)
    (hm : k ∉ t.missing_info) : setKV ks k t = t := by
  obtain ⟨c, m, ph, sp⟩ := t
  simp only [setKV]
  congr 1
  · simp only at hks
    induction ks with
    | nil => rfl
    | cons p rest ih =>
      rw [List.foldl_cons, dictSet_same p.1 p.2 c (hks p (by simp))]
      exact ih (fun q hq => hks q (by simp [hq]))
  · exact filter_ne_of_not_mem k m hm

theorem missing_sub_r_dates (low : List Char) (s : WState) (a : String)
    (h : a ∈ (r_dates low s).missing_info) : a ∈ s.missing_info := by
  unfold r_dates at h
  revert h
  cases datesDec low <;> intro h
  · exact h
  · exact List.mem_of_mem_filter h

theorem missing_sub_r_group (low : List Char) (s : WState) (a : String)
    (h : a ∈ (r_group low s).missing_info) : a ∈ s.missing_info := by
  unfold r_group at h
  revert h
  cases groupDec low <;> intro h
  · exact h
  · exact List.mem_of_mem_filter h

theorem missing_sub_r_ages (low : List Char) (s : WState) (a : String)
    (h : a ∈ (r_ages low s).missing_info) : a ∈ s.missing_info := by
  unfold r_ages at h
  revert h
  cases agesDec low <;> intro h
  · exact h
  · exact List.mem_of_mem_filter h

theorem missing_sub_r_budget (msg : List Char) (s t : WState)
    (hbud : r_budget msg s = some t) (a : String)
    (h : a ∈ t.missing_info) : a ∈ s.missing_info := by
  unfold r_budget at hbud
  rcases hb : budgetDec msg with - | (- | ⟨m, M⟩) <;> rw [hb] at hbud
  · exact absurd hbud (by simp)
  · simp at hbud
    rw [← hbud] at h
    exact h
  · simp at hbud
    rw [← hbud] at h
    simp only [setKV] at h
    exact List.mem_of_mem_filter h

theorem missing_sub_r_special (low : List Char) (s : WState) (a : String)
    (h : a ∈ (r_special low s).missing_info) : a ∈ s.missing_info := by
  simp only [r_special] at h
  split_ifs at h
  · exact List.erase_subset _ _ h
  · exact h
  · exact List.erase_subset _ _ h
  · exact h
  · exact h

theorem get_r_dates_ne (low : List Char) (s : WState) (k : String)
    (hk : k ≠ "travel_dates") :
    dictGet k (r_dates low s).collected_info = dictGet k s.collected_info := by
  unfold r_dates
  cases datesDec low
  · rfl
  · simp only [setKV, List.foldl]
    exact dictGet_dictSet_ne _ _ _ _ (Ne.symm hk)

theorem get_r_group_ne (low : List Char) (s : WState) (k : String)
    (hk1 : k ≠ "adults") (hk2 : k ≠ "group_size") :
    dictGet k (r_group low s).collected_info = dictGet k s.collected_info := by
  unfold r_group groupDec
  split_ifs
  · simp only [setKV, List.foldl]
    rw [dictGet_dictSet_ne _ _ _ _ (Ne.symm hk2), dictGet_dictSet_ne _ _ _ _ (Ne.symm hk1)]
  · simp only [setKV, List.foldl]
    exact dictGet_dictSet_ne _ _ _ _ (Ne.symm hk2)
  · rfl

theorem get_r_ages_ne (low : List Char) (s : WState) (k : String)
    (hk1 : k ≠ "children_ages") (hk2 : k ≠ "children_count") :
    dictGet k (r_ages low s).collected_info = dictGet k s.collected_info := by
  unfold r_ages
  cases agesDec low
  · rfl
  · simp only [setKV, List.foldl]
    rw [dictGet_dictSet_ne _ _ _ _ (Ne.symm hk2), dictGet_dictSet_ne _ _ _ _ (Ne.symm hk1)]

theorem get_r_budget_ne (msg : List Char) (s t : WState)
    (hbud : r_budget msg s = some t) (k : String) (hk : k ≠ "budget_range") :
    dictGet k t.collected_info = dictGet k s.collected_info := by
  unfold r_budget at hbud
  rcases hb : budgetDec msg with - | (- | ⟨m, M⟩) <;> rw [hb] at hbud
  · exact absurd hbud (by simp)
  · simp at hbud
    rw [← hbud]
  · simp at hbud
    rw [← hbud]
    simp only [setKV, List.foldl]
    exact dictGet_dictSet_ne _ _ _ _ (Ne.symm hk)

theorem get_r_special_ne (low : List Char) (s : WState) (k : String)
    (hk : k ≠ "has_allergies") :
    dictGet k (r_special low s).collected_info = dictGet k s.collected_info := by
  simp only [r_special]
  split_ifs <;>
    first
      | rfl
      | (exact dictGet_dictSet_ne _ _ _ _ (Ne.symm hk))

theorem r_dates_self (low : List Char) (t : WState)
    (h : ∀ v, datesDec low = some v →
      dictGet ("travel_dates") t.collected_info = some v ∧
        ("travel_dates") ∉ t.missing_info) :
    r_dates low t = t := by
  unfold r_dates
  cases hd : datesDec low with
  | none => rfl
  | some v =>
    obtain ⟨hc, hm⟩ := h v hd
    refine setKV_self _ _ _ ?_ hm
    intro p hp
    simp only [List.mem_singleton] at hp
    rw [hp]
    exact hc

theorem r_group_self (low : List Char) (t : WState)
    (h : ∀ ks, groupDec low = some ks →
      (∀ p ∈ ks, dictGet p.1 t.collected_info = some p.2) ∧
        ("group_size") ∉ t.missing_info) :
    r_group low t = t := by
  unfold r_group
  cases hg : groupDec low with
  | none => rfl
  | some ks =>
    obtain ⟨hks, hm⟩ := h ks hg
    exact setKV_self ks _ t hks hm

theorem r_ages_self (low : List Char) (t : WState)
    (h : ∀ ags, agesDec low = some ags →
      dictGet ("children_ages") t.collected_info = some (Val.vl ags) ∧
        dictGet ("children_count") t.collected_info = some (Val.vn ags.length) ∧
        ("children_ages") ∉ t.missing_info) :
    r_ages low t = t := by
  unfold r_ages
  cases ha : agesDec low with
  | none => rfl
  | some ags =>
    obtain ⟨hc1, hc2, hm⟩ := h ags ha
    refine setKV_self _ _ _ ?_ hm
    intro p hp
    simp only [List.mem_cons, List.mem_singleton, List.not_mem_nil, or_false] at hp
    rcases hp with hp | hp <;> rw [hp]
    · exact hc1
    · exact hc2

theorem r_special_fields (low : List Char) (t : WState)
    (h : subOf (("allerg").toList) low = true →
      dictGet ("has_allergies") t.collected_info = some (Val.vb true) ∧
        ("special_requirements") ∉ t.missing_info) :
    (r_special low t).collected_info = t.collected_info ∧
    (r_special low t).missing_info = t.missing_info ∧
    (r_special low t).conversation_phase = t.conversation_phase := by
  simp only [r_special]
  split_ifs with ha hn hc hc
  · exact absurd (by simpa using hc) (h ha).2
  · exact ⟨dictSet_same _ _ _ (h ha).1, rfl, rfl⟩
  · exact absurd (by simpa using hc) (h ha).2
  · exact ⟨dictSet_same _ _ _ (h ha).1, rfl, rfl⟩
  · exact ⟨rfl, rfl, rfl⟩

/-- `_update_phase` is idempotent in the sense needed for a second
extraction pass: a state with the same collected dict as `u` and the
phase `_update_phase` produced from `u` is not moved again. -/
theorem updatePhase_stable (u t : WState)
    (hc : t.collected_info = u.collected_info)
    (hp : t.conversation_phase = (updatePhase u).conversation_phase) :
    updatePhase t = t := by
  simp only [updatePhase] at hp ⊢
  split_ifs at hp with hg hca
  · simp only at hp
    have hf : (t.conversation_phase == "gathering_info") = false := by
      rw [hp]
      decide
    rw [if_neg (by rw [hf]; simp)]
  · simp only at hp
    have hf : (t.conversation_phase == "gathering_info") = false := by
      rw [hp]
      decide
    rw [if_neg (by rw [hf]; simp)]
  · rw [hc, hp]
    rw [if_neg hg]

theorem post_dates_at (low : List Char) (v : Val) (u : WState)
    (hd : datesDec low = some v) :
    dictGet ("travel_dates") (r_dates low u).collected_info = some v ∧
    ("travel_dates") ∉ (r_dates low u).missing_info := by
  unfold r_dates
  rw [hd]
  simp only [setKV, List.foldl]
  constructor
  · rw [dictGet_dictSet]
    simp
  · exact not_mem_filter_self _ _

theorem groupDec_keys (low : List Char) (ks : List (String × Val))
    (hg : groupDec low = some ks) :
    ∀ p ∈ ks, p.1 = "adults" ∨ p.1 = "group_size" := by
  unfold groupDec at hg
  split_ifs at hg <;> injection hg with hk <;> subst hk <;> intro p hp <;>
    fin_cases hp <;> simp

theorem post_group_at (low : List Char) (ks : List (String × Val)) (u : WState)
    (hg : groupDec low = some ks) :
    (∀ p ∈ ks, dictGet p.1 (r_group low u).collected_info = some p.2) ∧
    ("group_size") ∉ (r_group low u).missing_info := by
  have hg0 := hg
  unfold r_group
  rw [hg0]
  simp only [setKV]
  refine ⟨?_, not_mem_filter_self _ _⟩
  unfold groupDec at hg
  split_ifs at hg <;> injection hg with hk <;> subst hk <;> intro p hp <;>
    fin_cases hp <;> simp only [List.foldl]
  · rw [dictGet_dictSet_ne _ _ _ _ (by decide), dictGet_dictSet]
    simp
  · rw [dictGet_dictSet]
    simp
  · rw [dictGet_dictSet]
    simp

theorem post_ages_at (low : List Char) (ags : List Nat) (u : WState)
    (ha : agesDec low = some ags) :
    dictGet ("children_ages") (r_ages low u).collected_info = some (Val.vl ags) ∧
    dictGet ("children_count") (r_ages low u).collected_info
      = some (Val.vn ags.length) ∧
    ("children_ages") ∉ (r_ages low u).missing_info := by
  unfold r_ages
  rw [ha]
  simp only [setKV, List.foldl]
  refine ⟨?_, ?_, not_mem_filter_self _ _⟩
  · rw [dictGet_dictSet_ne _ _ _ _ (by decide), dictGet_dictSet]
    simp
  · rw [dictGet_dictSet]
    simp

theorem post_budget_at (msg : List Char) (m M : Nat) (u t : WState)
    (hb : budgetDec msg = some (some (m, M))) (hbud : r_budget msg u = some t) :
    dictGet ("budget_range") t.collected_info = some (Val.vp m M) ∧
    ("budget") ∉ t.missing_info := by
  unfold r_budget at hbud
  rw [hb] at hbud
  simp at hbud
  rw [← hbud]
  simp only [setKV, List.foldl]
  constructor
  · rw [dictGet_dictSet]
    simp
  · exact not_mem_filter_self _ _

theorem post_special_at (low : List Char) (u : WState)
    (ha : subOf (("allerg").toList) low = true) (hnd : u.missing_info.Nodup) :
    dictGet ("has_allergies") (r_special low u).collected_info
      = some (Val.vb true) ∧
    ("special_requirements") ∉ (r_special low u).missing_info := by
  simp only [r_special]
  rw [if_pos ha]
  split_ifs with hn hc hc <;>
    refine ⟨by rw [dictGet_dictSet]; simp, ?_⟩
  · exact hnd.not_mem_erase
  · simpa using hc
  · exact hnd.not_mem_erase
  · simpa using hc

/-- After one full extraction pass, each rule that fired has left its
postcondition in the resulting state (key present with the value the text
determines, field name gone from `missing_info`). -/
theorem pass_postconds (msg : List Char) (s : WState) (hnd : s.missing_info.Nodup) :
    (∀ v, datesDec (lowerL msg) = some v →
      dictGet ("travel_dates") (extractInfo msg s).2.collected_info = some v ∧
      ("travel_dates") ∉ (extractInfo msg s).2.missing_info) ∧
    (∀ ks, groupDec (lowerL msg) = some ks →
      (∀ p ∈ ks, dictGet p.1 (extractInfo msg s).2.collected_info = some p.2) ∧
      ("group_size") ∉ (extractInfo msg s).2.missing_info) ∧
    (∀ ags, agesDec (lowerL msg) = some ags →
      dictGet ("children_ages") (extractInfo msg s).2.collected_info
        = some (Val.vl ags) ∧
      dictGet ("children_count") (extractInfo msg s).2.collected_info
        = some (Val.vn ags.length) ∧
      ("children_ages") ∉ (extractInfo msg s).2.missing_info) ∧
    (∀ m M, budgetDec msg = some (some (m, M)) →
      dictGet ("budget_range") (extractInfo msg s).2.collected_info
        = some (Val.vp m M) ∧
      ("budget") ∉ (extractInfo msg s).2.missing_info) ∧
    ((extractInfo msg s).1 = true → subOf (("allerg").toList) (lowerL msg) = true →
      dictGet ("has_allergies") (extractInfo msg s).2.collected_info
        = some (Val.vb true) ∧
      ("special_requirements") ∉ (extractInfo msg s).2.missing_info) := by
  have hnd4 : (r_ages (lowerL msg) (r_group (lowerL msg)
      (r_dates (lowerL msg) s))).missing_info.Nodup :=
    nodup_r_ages _ _ (nodup_r_group _ _ (nodup_r_dates _ _ hnd))
  simp only [extractInfo]
  rcases hbud : r_budget msg (r_ages (lowerL msg) (r_group (lowerL msg)
      (r_dates (lowerL msg) s))) with - | s4
  · refine ⟨?_, ?_, ?_, ?_, ?_⟩
    · intro v hd
      obtain ⟨hc0, hm0⟩ := post_dates_at (lowerL msg) v s hd
      refine ⟨?_, ?_⟩
      · rw [get_r_ages_ne _ _ _ (by decide) (by decide),
          get_r_group_ne _ _ _ (by decide) (by decide)]
        exact hc0
      · intro hmem
        exact hm0 (missing_sub_r_group _ _ _ (missing_sub_r_ages _ _ _ hmem))
    · intro ks hg
      obtain ⟨hc0, hm0⟩ := post_group_at (lowerL msg) ks (r_dates (lowerL msg) s) hg
      refine ⟨?_, ?_⟩
      · intro p hp
        rcases groupDec_keys (lowerL msg) ks hg p hp with hk | hk <;>
          rw [get_r_ages_ne _ _ _ (by rw [hk]; decide) (by rw [hk]; decide)] <;>
          exact hc0 p hp
      · intro hmem
        exact hm0 (missing_sub_r_ages _ _ _ hmem)
    · intro ags ha
      obtain ⟨hc0, hc1, hm0⟩ :=
        post_ages_at (lowerL msg) ags (r_group (lowerL msg) (r_dates (lowerL msg) s)) ha
      exact ⟨hc0, hc1, hm0⟩
    · intro m M hb
      unfold r_budget at hbud
      rw [hb] at hbud
      simp at hbud
    · intro h
      simp at h
  · have hndS4 : s4.missing_info.Nodup := nodup_r_budget _ _ _ hbud hnd4
    refine ⟨?_, ?_, ?_, ?_, ?_⟩
    · intro v hd
      obtain ⟨hc0, hm0⟩ := post_dates_at (lowerL msg) v s hd
      refine ⟨?_, ?_⟩
      · dsimp only
        rw [updatePhase_collected, get_r_special_ne _ _ _ (by decide),
          get_r_budget_ne _ _ _ hbud _ (by decide),
          get_r_ages_ne _ _ _ (by decide) (by decide),
          get_r_group_ne _ _ _ (by decide) (by decide)]
        exact hc0
      · dsimp only
        rw [updatePhase_missing]
        intro hmem
        exact hm0 (missing_sub_r_group _ _ _ (missing_sub_r_ages _ _ _
          (missing_sub_r_budget _ _ _ hbud _ (missing_sub_r_special _ _ _ hmem))))
    · intro ks hg
      obtain ⟨hc0, hm0⟩ := post_group_at (lowerL msg) ks (r_dates (lowerL msg) s) hg
      refine ⟨?_, ?_⟩
      · intro p hp
        dsimp only
        rcases groupDec_keys (lowerL msg) ks hg p hp with hk | hk <;>
          rw [updatePhase_collected, get_r_special_ne _ _ _ (by rw [hk]; decide),
            get_r_budget_ne _ _ _ hbud _ (by rw [hk]; decide),
            get_r_ages_ne _ _ _ (by rw [hk]; decide) (by rw [hk]; decide)] <;>
          exact hc0 p hp
      · dsimp only
        rw [updatePhase_missing]
        intro hmem
        exact hm0 (missing_sub_r_ages _ _ _ (missing_sub_r_budget _ _ _ hbud _
          (missing_sub_r_special _ _ _ hmem)))
    · intro ags ha
      obtain ⟨hc0, hc1, hm0⟩ :=
        post_ages_at (lowerL msg) ags (r_group (lowerL msg) (r_dates (lowerL msg) s)) ha
      refine ⟨?_, ?_, ?_⟩
      · dsimp only
        rw [updatePhase_collected, get_r_special_ne _ _ _ (by decide),
          get_r_budget_ne _ _ _ hbud _ (by decide)]
        exact hc0
      · dsimp only
        rw [updatePhase_collected, get_r_special_ne _ _ _ (by decide),
          get_r_budget_ne _ _ _ hbud _ (by decide)]
        exact hc1
      · dsimp only
        rw [updatePhase_missing]
        intro hmem
        exact hm0 (missing_sub_r_budget _ _ _ hbud _
          (missing_sub_r_special _ _ _ hmem))
    · intro m M hb
      obtain ⟨hc0, hm0⟩ := post_budget_at msg m M _ s4 hb hbud
      refine ⟨?_, ?_⟩
      · dsimp only
        rw [updatePhase_collected, get_r_special_ne _ _ _ (by decide)]
        exact hc0
      · dsimp only
        rw [updatePhase_missing]
        intro hmem
        exact hm0 (missing_sub_r_special _ _ _ hmem)
    · intro _ ha
      obtain ⟨hc0, hm0⟩ := post_special_at (lowerL msg) s4 ha hndS4
      refine ⟨?_, ?_⟩
      · dsimp only
        rw [updatePhase_collected]
        exact hc0
      · dsimp only
        rw [updatePhase_missing]
        exact hm0

/-- A second extraction pass with the same message leaves the collected
dict, the missing list and the phase unchanged (only the
special-requirements list can grow). -/
theorem extract_idem (msg : List Char) (s : WState) (hnd : s.missing_info.Nodup) :
    (extractInfo msg (extractInfo msg s).2).1 = (extractInfo msg s).1 ∧
    (extractInfo msg (extractInfo msg s).2).2.collected_info
      = (extractInfo msg s).2.collected_info ∧
    (extractInfo msg (extractInfo msg s).2).2.missing_info
      = (extractInfo msg s).2.missing_info ∧
    (extractInfo msg (extractInfo msg s).2).2.conversation_phase
      = (extractInfo msg s).2.conversation_phase := by
  obtain ⟨Pd, Pg, Pa, Pb, Ps⟩ := pass_postconds msg s hnd
  have hd2 : r_dates (lowerL msg) (extractInfo msg s).2 = (extractInfo msg s).2 :=
    r_dates_self _ _ Pd
  have hg2 : r_group (lowerL msg) (extractInfo msg s).2 = (extractInfo msg s).2 :=
    r_group_self _ _ Pg
  have ha2 : r_ages (lowerL msg) (extractInfo msg s).2 = (extractInfo msg s).2 :=
    r_ages_self _ _ Pa
  rcases hb : budgetDec msg with - | (- | ⟨m, M⟩)
  · have hcr : ∀ u : WState, r_budget msg u = none := fun u => by
      unfold r_budget
      rw [hb]
    have hE1 : extractInfo msg s =
        (false, r_ages (lowerL msg) (r_group (lowerL msg) (r_dates (lowerL msg) s))) := by
      simp only [extractInfo]
      rw [hcr]
    have hE2 : extractInfo msg (extractInfo msg s).2 =
        (false, (extractInfo msg s).2) := by
      generalize (extractInfo msg s).2 = e2 at hd2 hg2 ha2 ⊢
      simp only [extractInfo]
      rw [hd2, hg2, ha2, hcr]
    rw [hE2]
    exact ⟨by rw [hE1], rfl, rfl, rfl⟩
  · have hbr : ∀ u : WState, r_budget msg u = some u := fun u => by
      unfold r_budget
      rw [hb]
    have hE1 : extractInfo msg s =
        (true, updatePhase (r_special (lowerL msg)
          (r_ages (lowerL msg) (r_group (lowerL msg) (r_dates (lowerL msg) s))))) := by
      simp only [extractInfo]
      rw [hbr]
    have hflag : (extractInfo msg s).1 = true := by rw [hE1]
    have hsp := r_special_fields (lowerL msg) (extractInfo msg s).2
      (fun ha => Ps hflag ha)
    have hE2 : extractInfo msg (extractInfo msg s).2 =
        (true, updatePhase (r_special (lowerL msg) (extractInfo msg s).2)) := by
      generalize (extractInfo msg s).2 = e2 at hd2 hg2 ha2 ⊢
      simp only [extractInfo]
      rw [hd2, hg2, ha2, hbr]
    have hstab : updatePhase (r_special (lowerL msg) (extractInfo msg s).2)
        = r_special (lowerL msg) (extractInfo msg s).2 := by
      apply updatePhase_stable (r_special (lowerL msg)
        (r_ages (lowerL msg) (r_group (lowerL msg) (r_dates (lowerL msg) s))))
      · rw [hsp.1, hE1]
        exact updatePhase_collected _
      · rw [hsp.2.2, hE1]
    rw [hE2, hstab]
    exact ⟨hflag.symm, hsp.1, hsp.2.1, hsp.2.2⟩
  · have hbr : ∀ u : WState, r_budget msg u =
        some (setKV [(("budget_range"), Val.vp m M)] ("budget") u) := fun u => by
      unfold r_budget
      rw [hb]
    have hE1 : extractInfo msg s =
        (true, updatePhase (r_special (lowerL msg)
          (setKV [(("budget_range"), Val.vp m M)] ("budget")
            (r_ages (lowerL msg) (r_group (lowerL msg) (r_dates (lowerL msg) s)))))) := by
      simp only [extractInfo]
      rw [hbr]
    have hflag : (extractInfo msg s).1 = true := by rw [hE1]
    have hbset : setKV [(("budget_range"), Val.vp m M)] ("budget")
        (extractInfo msg s).2 = (extractInfo msg s).2 := by
      refine setKV_self _ _ _ ?_ (Pb m M hb).2
      intro p hp
      simp only [List.mem_singleton] at hp
      rw [hp]
      exact (Pb m M hb).1
    have hsp := r_special_fields (lowerL msg) (extractInfo msg s).2
      (fun ha => Ps hflag ha)
    have hE2 : extractInfo msg (extractInfo msg s).2 =
        (true, updatePhase (r_special (lowerL msg) (extractInfo msg s).2)) := by
      generalize (extractInfo msg s).2 = e2 at hd2 hg2 ha2 hbset ⊢
      simp only [extractInfo]
      rw [hd2, hg2, ha2, hbr, hbset]
    have hstab : updatePhase (r_special (lowerL msg) (extractInfo msg s).2)
        = r_special (lowerL msg) (extractInfo msg s).2 := by
      apply updatePhase_stable (r_special (lowerL msg)
        (setKV [(("budget_range"), Val.vp m M)] ("budget")
          (r_ages (lowerL msg) (r_group (lowerL msg) (r_dates (lowerL msg) s)))))
      · rw [hsp.1, hE1]
        exact updatePhase_collected _
      · rw [hsp.2.2, hE1]
    rw [hE2, hstab]
    exact ⟨hflag.symm, hsp.1, hsp.2.1, hsp.2.2⟩

theorem EqD_refl (s : WState) : EqD s s := ⟨rfl, rfl, rfl, rfl⟩

theorem EqD_symm (s t : WState) (h : EqD s t) : EqD t s :=
  ⟨h.1.symm, h.2.1.symm, h.2.2.1.symm, h.2.2.2.symm⟩

theorem EqD_trans (s t u : WState) (h1 : EqD s t) (h2 : EqD t u) : EqD s u :=
  ⟨h1.1.trans h2.1, h1.2.1.trans h2.2.1, h1.2.2.1.trans h2.2.2.1,
    h1.2.2.2.trans h2.2.2.2⟩

theorem getsFun_foldl_nokey (ks : List (String × Val)) (c : List (String × Val))
    (k : String) (h : ∀ p ∈ ks, p.1 ≠ k) :
    getsFun (List.foldl (fun d p => dictSet p.1 p.2 d) c ks) k = getsFun c k := by
  induction ks generalizing c with
  | nil => rfl
  | cons p t ih =>
    rw [List.foldl_cons, ih _ (fun q hq => h q (by simp [hq]))]
    simp only [getsFun]
    exact dictGet_dictSet_ne _ _ _ _ (h p (by simp))

theorem getsFun_foldl_congr (ks : List (String × Val)) (X Y : List (String × Val))
    (k : String) (h : getsFun X k = getsFun Y k) :
    getsFun (List.foldl (fun d p => dictSet p.1 p.2 d) X ks) k
      = getsFun (List.foldl (fun d p => dictSet p.1 p.2 d) Y ks) k := by
  induction ks generalizing X Y with
  | nil => exact h
  | cons p t ih =>
    rw [List.foldl_cons, List.foldl_cons]
    apply ih
    simp only [getsFun, dictGet_dictSet]
    split_ifs
    · rfl
    · exact h

theorem getsFun_foldl_comm (ks1 ks2 : List (String × Val)) (c : List (String × Val))
    (hdisj : ∀ p ∈ ks1, ∀ q ∈ ks2, p.1 ≠ q.1) :
    getsFun (List.foldl (fun d p => dictSet p.1 p.2 d)
        (List.foldl (fun d p => dictSet p.1 p.2 d) c ks2) ks1)
      = getsFun (List.foldl (fun d p => dictSet p.1 p.2 d)
        (List.foldl (fun d p => dictSet p.1 p.2 d) c ks1) ks2) := by
  funext k
  by_cases hk1 : ∀ p ∈ ks1, p.1 ≠ k
  · rw [getsFun_foldl_nokey ks1 _ k hk1]
    exact (getsFun_foldl_congr ks2 _ c k (getsFun_foldl_nokey ks1 c k hk1)).symm
  · have hk2 : ∀ q ∈ ks2, q.1 ≠ k := by
      push_neg at hk1
      obtain ⟨p, hp, hpk⟩ := hk1
      intro q hq he
      exact hdisj p hp q hq (by rw [hpk, he])
    rw [getsFun_foldl_congr ks1 _ c k (getsFun_foldl_nokey ks2 c k hk2)]
    exact (getsFun_foldl_nokey ks2 _ k hk2).symm

theorem filter_filter_comm (p q : String → Bool) (l : List String) :
    (l.filter p).filter q = (l.filter q).filter p := by
  induction l with
  | nil => rfl
  | cons a t ih =>
    by_cases hp : p a <;> by_cases hq : q a <;> simp [List.filter, hp, hq, ih]

theorem contains_filter_ne (a k : String) (l : List String) (h : a ≠ k) :
    (l.filter (fun x => x != k)).contains a = l.contains a := by
  by_cases hm : a ∈ l
  · show List.elem a (List.filter (fun x => x != k) l) = List.elem a l
    rw [List.elem_eq_true_of_mem ((mem_filter_ne a k l h).mpr hm),
      List.elem_eq_true_of_mem hm]
  · have h1 : a ∉ l.filter (fun x => x != k) := fun hx => hm ((mem_filter_ne a k l h).mp hx)
    simp [hm, h1]

theorem erase_filter_comm (a k : String) (l : List String) (h : a ≠ k) :
    (l.filter (fun x => x != k)).erase a = (l.erase a).filter (fun x => x != k) := by
  induction l with
  | nil => rfl
  | cons b t ih =>
    by_cases hba : b = a
    · subst hba
      have hbk : (b != k) = true := bne_iff_ne.mpr h
      simp [List.filter, hbk, List.erase_cons]
    · have hba2 : (b == a) = false := beq_eq_false_iff_ne.mpr hba
      by_cases hbk : (b != k) = true
      · simp [List.filter, hbk, List.erase_cons, hba2, ih]
      · have hbk2 : (b != k) = false := by simpa using hbk
        simp [List.filter, hbk2, List.erase_cons, hba2, ih]

theorem EqD_setKV_comm (ks1 ks2 : List (String × Val)) (k1 k2 : String) (s : WState)
    (hdisj : ∀ p ∈ ks1, ∀ q ∈ ks2, p.1 ≠ q.1) :
    EqD (setKV ks1 k1 (setKV ks2 k2 s)) (setKV ks2 k2 (setKV ks1 k1 s)) := by
  refine ⟨?_, ?_, rfl, rfl⟩
  · simp only [setKV]
    exact getsFun_foldl_comm ks1 ks2 s.collected_info hdisj
  · simp only [setKV]
    exact filter_filter_comm _ _ _

theorem r_special_collected (low : List Char) (s : WState) :
    (r_special low s).collected_info =
      if subOf (("allerg").toList) low then
        dictSet ("has_allergies") (Val.vb true) s.collected_info
      else s.collected_info := by
  simp only [r_special]
  split_ifs <;> rfl

theorem r_special_missing (low : List Char) (s : WState) :
    (r_special low s).missing_info =
      if subOf (("allerg").toList) low = true ∧
          s.missing_info.contains ("special_requirements") = true then
        s.missing_info.erase ("special_requirements")
      else s.missing_info := by
  simp only [r_special]
  by_cases ha : subOf (("allerg").toList) low = true
  · rw [if_pos ha]
    by_cases hn : subOf (("nut").toList) low = true
    · rw [if_pos hn]
      dsimp only
      by_cases hc : s.missing_info.contains ("special_requirements") = true
      · rw [if_pos hc, if_pos ⟨ha, hc⟩]
      · rw [if_neg hc, if_neg (fun hand => hc hand.2)]
    · rw [if_neg hn]
      by_cases hc : s.missing_info.contains ("special_requirements") = true
      · rw [if_pos hc, if_pos ⟨ha, hc⟩]
      · rw [if_neg hc, if_neg (fun hand => hc hand.2)]
  · rw [if_neg ha, if_neg (fun hand => ha hand.1)]

theorem r_special_special (low : List Char) (s : WState) :
    (r_special low s).special_requirements =
      if subOf (("allerg").toList) low = true ∧ subOf (("nut").toList) low = true then
        s.special_requirements ++ ["nut allergy"]
      else s.special_requirements := by
  simp only [r_special]
  by_cases ha : subOf (("allerg").toList) low = true
  · rw [if_pos ha]
    by_cases hn : subOf (("nut").toList) low = true
    · rw [if_pos hn]
      split_ifs <;> simp_all
    · rw [if_neg hn]
      split_ifs <;> simp_all
  · rw [if_neg ha]
    rw [if_neg (fun hand => ha hand.1)]

theorem getsFun_dictSet_foldl_comm (k0 : String) (v0 : Val)
    (ks : List (String × Val)) (c : List (String × Val))
    (hks : ∀ p ∈ ks, p.1 ≠ k0) :
    getsFun (dictSet k0 v0 (List.foldl (fun d p => dictSet p.1 p.2 d) c ks))
      = getsFun (List.foldl (fun d p => dictSet p.1 p.2 d) (dictSet k0 v0 c) ks) := by
  have h2 := getsFun_foldl_comm ks [(k0, v0)] c
    (fun p hp q hq => by
      simp only [List.mem_singleton] at hq
      rw [hq]
      exact hks p hp)
  simp only [List.foldl] at h2
  exact h2.symm

/-- A field rule that writes keys other than `has_allergies` and removes a
name other than `special_requirements` commutes with the
special-requirements rule, up to dict order. -/
theorem EqD_setKV_special (low : List Char) (ks : List (String × Val)) (k : String)
    (s : WState) (hks : ∀ p ∈ ks, p.1 ≠ "has_allergies")
    (hk : ("special_requirements" : String) ≠ k) :
    EqD (r_special low (setKV ks k s)) (setKV ks k (r_special low s)) := by
  refine ⟨?_, ?_, ?_, ?_⟩
  · rw [r_special_collected]
    simp only [setKV]
    rw [r_special_collected]
    by_cases ha : subOf (("allerg").toList) low = true
    · rw [if_pos ha, if_pos ha]
      exact getsFun_dictSet_foldl_comm _ _ ks s.collected_info hks
    · rw [if_neg ha, if_neg ha]
  · rw [r_special_missing]
    simp only [setKV]
    rw [r_special_missing]
    by_cases ha : subOf (("allerg").toList) low = true
    · by_cases hc : s.missing_info.contains ("special_requirements") = true
      · rw [if_pos ⟨ha, by rw [contains_filter_ne _ _ _ hk]; exact hc⟩, if_pos ⟨ha, hc⟩]
        exact erase_filter_comm _ _ _ hk
      · rw [if_neg (fun hand => hc (by rw [← contains_filter_ne _ _ _ hk]; exact hand.2)),
          if_neg (fun hand => hc hand.2)]
    · rw [if_neg (fun hand => ha hand.1), if_neg (fun hand => ha hand.1)]
  · rw [r_special_phase]
    simp only [setKV]
    rw [r_special_phase]
  · rw [r_special_special]
    simp only [setKV]
    rw [r_special_special]

theorem getsFun_dictSet_congr (k : String) (v : Val) (X Y : List (String × Val))
    (h : getsFun X = getsFun Y) :
    getsFun (dictSet k v X) = getsFun (dictSet k v Y) := by
  funext k2
  simp only [getsFun, dictGet_dictSet]
  split_ifs
  · rfl
  · exact congrFun h k2

theorem EqD_setKV (ks : List (String × Val)) (k : String) (s t : WState)
    (h : EqD s t) : EqD (setKV ks k s) (setKV ks k t) := by
  refine ⟨?_, ?_, h.2.2.1, h.2.2.2⟩
  · simp only [setKV]
    funext k2
    exact getsFun_foldl_congr ks _ _ k2 (congrFun h.1 k2)
  · simp only [setKV]
    rw [h.2.1]

theorem EqD_r_dates (low : List Char) (s t : WState) (h : EqD s t) :
    EqD (r_dates low s) (r_dates low t) := by
  unfold r_dates
  cases datesDec low
  · exact h
  · exact EqD_setKV _ _ _ _ h

theorem EqD_r_group (low : List Char) (s t : WState) (h : EqD s t) :
    EqD (r_group low s) (r_group low t) := by
  unfold r_group
  cases groupDec low
  · exact h
  · exact EqD_setKV _ _ _ _ h

theorem EqD_r_ages (low : List Char) (s t : WState) (h : EqD s t) :
    EqD (r_ages low s) (r_ages low t) := by
  unfold r_ages
  cases agesDec low
  · exact h
  · exact EqD_setKV _ _ _ _ h

theorem EqD_r_budgetT (msg : List Char) (s t : WState) (h : EqD s t) :
    EqD (r_budgetT msg s) (r_budgetT msg t) := by
  unfold r_budgetT r_budget
  rcases budgetDec msg with - | (- | ⟨m, M⟩)
  · exact h
  · exact h
  · exact EqD_setKV _ _ _ _ h

theorem EqD_r_special (low : List Char) (s t : WState) (h : EqD s t) :
    EqD (r_special low s) (r_special low t) := by
  refine ⟨?_, ?_, ?_, ?_⟩
  · rw [r_special_collected, r_special_collected]
    split_ifs
    · exact getsFun_dictSet_congr _ _ _ _ h.1
    · exact h.1
  · rw [r_special_missing, r_special_missing, h.2.1]
  · rw [r_special_phase, r_special_phase]
    exact h.2.2.1
  · rw [r_special_special, r_special_special, h.2.2.2]

theorem applyAll_resp (l : List (WState → WState))
    (hl : ∀ f ∈ l, ∀ s t, EqD s t → EqD (f s) (f t)) :
    ∀ s t, EqD s t → EqD (applyAll l s) (applyAll l t) := by
  induction l with
  | nil => intro s t h; exact h
  | cons f rest ih =>
    intro s t h
    simp only [applyAll, List.foldl_cons]
    exact ih (fun g hg => hl g (by simp [hg])) _ _ (hl f (by simp) s t h)

/-- Folding a permutation of a list of pairwise-commuting,
equivalence-respecting state transformers yields the same state up to dict
order. -/
theorem applyAll_perm_EqD : ∀ {fs gs : List (WState → WState)}, fs.Perm gs →
    (∀ f ∈ fs, ∀ s t, EqD s t → EqD (f s) (f t)) →
    (∀ f ∈ fs, ∀ g ∈ fs, ∀ s, EqD (f (g s)) (g (f s))) →
    ∀ s, EqD (applyAll fs s) (applyAll gs s) := by
  intro fs gs hperm
  induction hperm with
  | nil =>
    intro _ _ s
    exact EqD_refl _
  | cons x hp ih =>
    intro hresp hcomm s
    simp only [applyAll, List.foldl_cons]
    exact ih (fun f hf => hresp f (by simp [hf]))
      (fun f hf g hg => hcomm f (by simp [hf]) g (by simp [hg])) (x s)
  | swap x y l =>
    intro hresp hcomm s
    simp only [applyAll, List.foldl_cons]
    exact applyAll_resp l (fun f hf => hresp f (by simp [hf])) _ _
      (hcomm x (by simp) y (by simp) s)
  | trans hp1 hp2 ih1 ih2 =>
    intro hresp hcomm s
    refine EqD_trans _ _ _ (ih1 hresp hcomm s) (ih2 ?_ ?_ s)
    · intro f hf
      exact hresp f (hp1.mem_iff.mpr hf)
    · intro f hf g hg
      exact hcomm f (hp1.mem_iff.mpr hf) g (hp1.mem_iff.mpr hg)

theorem agesDec_keys (ags : List Nat) (p : String × Val)
    (hp : p ∈ [(("children_ages"), Val.vl ags),
      (("children_count"), Val.vn ags.length)]) :
    p.1 = "children_ages" ∨ p.1 = "children_count" := by
  fin_cases hp <;> simp

theorem comm_dates_group (low : List Char) (s : WState) :
    EqD (r_dates low (r_group low s)) (r_group low (r_dates low s)) := by
  unfold r_dates r_group
  cases hd : datesDec low with
  | none => cases groupDec low <;> exact EqD_refl _
  | some v =>
    cases hg : groupDec low with
    | none => exact EqD_refl _
    | some ks =>
      refine EqD_setKV_comm _ _ _ _ _ ?_
      intro p hp q hq
      simp only [List.mem_singleton] at hp
      have hp1 : p.1 = "travel_dates" := by rw [hp]
      rcases groupDec_keys low ks hg q hq with h | h <;> rw [hp1, h] <;> decide

theorem comm_dates_ages (low : List Char) (s : WState) :
    EqD (r_dates low (r_ages low s)) (r_ages low (r_dates low s)) := by
  unfold r_dates r_ages
  cases hd : datesDec low with
  | none => cases agesDec low <;> exact EqD_refl _
  | some v =>
    cases ha : agesDec low with
    | none => exact EqD_refl _
    | some ags =>
      refine EqD_setKV_comm _ _ _ _ _ ?_
      intro p hp q hq
      simp only [List.mem_singleton] at hp
      have hp1 : p.1 = "travel_dates" := by rw [hp]
      rcases agesDec_keys ags q hq with h | h <;> rw [hp1, h] <;> decide

theorem comm_dates_budget (low msg : List Char) (s : WState) :
    EqD (r_dates low (r_budgetT msg s)) (r_budgetT msg (r_dates low s)) := by
  unfold r_budgetT r_budget
  rcases budgetDec msg with - | (- | ⟨m, M⟩)
  · exact EqD_refl _
  · exact EqD_refl _
  · unfold r_dates
    cases datesDec low
    · exact EqD_refl _
    · refine EqD_setKV_comm _ _ _ _ _ ?_
      intro p hp q hq
      simp only [List.mem_singleton] at hp hq
      have hp1 : p.1 = "travel_dates" := by rw [hp]
      have hq1 : q.1 = "budget_range" := by rw [hq]
      rw [hp1, hq1]
      decide

theorem comm_dates_special (low : List Char) (s : WState) :
    EqD (r_dates low (r_special low s)) (r_special low (r_dates low s)) := by
  unfold r_dates
  cases datesDec low
  · exact EqD_refl _
  · refine EqD_symm _ _ (EqD_setKV_special low _ _ s ?_ (by decide))
    intro p hp
    simp only [List.mem_singleton] at hp
    have hp1 : p.1 = "travel_dates" := by rw [hp]
    rw [hp1]
    decide

theorem comm_group_ages (low : List Char) (s : WState) :
    EqD (r_group low (r_ages low s)) (r_ages low (r_group low s)) := by
  unfold r_group r_ages
  cases hg : groupDec low with
  | none => cases agesDec low <;> exact EqD_refl _
  | some ks =>
    cases ha : agesDec low with
    | none => exact EqD_refl _
    | some ags =>
      refine EqD_setKV_comm _ _ _ _ _ ?_
      intro p hp q hq
      rcases groupDec_keys low ks hg p hp with h | h <;>
        rcases agesDec_keys ags q hq with h2 | h2 <;> rw [h, h2] <;> decide

theorem comm_group_budget (low msg : List Char) (s : WState) :
    EqD (r_group low (r_budgetT msg s)) (r_budgetT msg (r_group low s)) := by
  unfold r_budgetT r_budget
  rcases budgetDec msg with - | (- | ⟨m, M⟩)
  · exact EqD_refl _
  · exact EqD_refl _
  · unfold r_group
    cases hg : groupDec low with
    | none => exact EqD_refl _
    | some ks =>
      refine EqD_setKV_comm _ _ _ _ _ ?_
      intro p hp q hq
      simp only [List.mem_singleton] at hq
      have hq1 : q.1 = "budget_range" := by rw [hq]
      rcases groupDec_keys low ks hg p hp with h | h <;> rw [h, hq1] <;> decide

theorem comm_group_special (low : List Char) (s : WState) :
    EqD (r_group low (r_special low s)) (r_special low (r_group low s)) := by
  unfold r_group
  cases hg : groupDec low with
  | none => exact EqD_refl _
  | some ks =>
    refine EqD_symm _ _ (EqD_setKV_special low _ _ s ?_ (by decide))
    intro p hp
    rcases groupDec_keys low ks hg p hp with h | h <;> rw [h] <;> decide

theorem comm_ages_budget (low msg : List Char) (s : WState) :
    EqD (r_ages low (r_budgetT msg s)) (r_budgetT msg (r_ages low s)) := by
  unfold r_budgetT r_budget
  rcases budgetDec msg with - | (- | ⟨m, M⟩)
  · exact EqD_refl _
  · exact EqD_refl _
  · unfold r_ages
    cases ha : agesDec low with
    | none => exact EqD_refl _
    | some ags =>
      refine EqD_setKV_comm _ _ _ _ _ ?_
      intro p hp q hq
      simp only [List.mem_singleton] at hq
      have hq1 : q.1 = "budget_range" := by rw [hq]
      rcases agesDec_keys ags p hp with h | h <;> rw [h, hq1] <;> decide

theorem comm_ages_special (low : List Char) (s : WState) :
    EqD (r_ages low (r_special low s)) (r_special low (r_ages low s)) := by
  unfold r_ages
  cases ha : agesDec low with
  | none => exact EqD_refl _
  | some ags =>
    refine EqD_symm _ _ (EqD_setKV_special low _ _ s ?_ (by decide))
    intro p hp
    rcases agesDec_keys ags p hp with h | h <;> rw [h] <;> decide

theorem comm_budget_special (msg low : List Char) (s : WState) :
    EqD (r_budgetT msg (r_special low s)) (r_special low (r_budgetT msg s)) := by
  unfold r_budgetT r_budget
  rcases budgetDec msg with - | (- | ⟨m, M⟩)
  · exact EqD_refl _
  · exact EqD_refl _
  · refine EqD_symm _ _ (EqD_setKV_special low _ _ s ?_ (by decide))
    intro p hp
    simp only [List.mem_singleton] at hp
    have hp1 : p.1 = "budget_range" := by rw [hp]
    rw [hp1]
    decide

/-- Order independence of the totalized rules, extracted for reuse. -/
theorem ruleFuns_perm_EqD (msg : List Char) (gs : List (WState → WState))
    (hperm : gs.Perm (ruleFuns msg)) (s : WState) :
    EqD (applyAll gs s) (applyAll (ruleFuns msg) s) := by
  refine applyAll_perm_EqD hperm ?_ ?_ s
  · intro f hf
    have hf2 : f ∈ ruleFuns msg := hperm.mem_iff.mp hf
    simp only [ruleFuns, List.mem_cons, List.not_mem_nil, or_false] at hf2
    rcases hf2 with rfl | rfl | rfl | rfl | rfl
    · exact EqD_r_dates (lowerL msg)
    · exact EqD_r_group (lowerL msg)
    · exact EqD_r_ages (lowerL msg)
    · exact EqD_r_budgetT msg
    · exact EqD_r_special (lowerL msg)
  · intro f hf g hg
    have hf2 : f ∈ ruleFuns msg := hperm.mem_iff.mp hf
    have hg2 : g ∈ ruleFuns msg := hperm.mem_iff.mp hg
    simp only [ruleFuns, List.mem_cons, List.not_mem_nil, or_false] at hf2 hg2
    rcases hf2 with rfl | rfl | rfl | rfl | rfl <;>
      rcases hg2 with rfl | rfl | rfl | rfl | rfl
    exacts [fun s => EqD_refl _,
      fun s => comm_dates_group (lowerL msg) s,
      fun s => comm_dates_ages (lowerL msg) s,
      fun s => comm_dates_budget (lowerL msg) msg s,
      fun s => comm_dates_special (lowerL msg) s,
      fun s => EqD_symm _ _ (comm_dates_group (lowerL msg) s),
      fun s => EqD_refl _,
      fun s => comm_group_ages (lowerL msg) s,
      fun s => comm_group_budget (lowerL msg) msg s,
      fun s => comm_group_special (lowerL msg) s,
      fun s => EqD_symm _ _ (comm_dates_ages (lowerL msg) s),
      fun s => EqD_symm _ _ (comm_group_ages (lowerL msg) s),
      fun s => EqD_refl _,
      fun s => comm_ages_budget (lowerL msg) msg s,
      fun s => comm_ages_special (lowerL msg) s,
      fun s => EqD_symm _ _ (comm_dates_budget (lowerL msg) msg s),
      fun s => EqD_symm _ _ (comm_group_budget (lowerL msg) msg s),
      fun s => EqD_symm _ _ (comm_ages_budget (lowerL msg) msg s),
      fun s => EqD_refl _,
      fun s => comm_budget_special msg (lowerL msg) s,
      fun s => EqD_symm _ _ (comm_dates_special (lowerL msg) s),
      fun s => EqD_symm _ _ (comm_group_special (lowerL msg) s),
      fun s => EqD_symm _ _ (comm_ages_special (lowerL msg) s),
      fun s => EqD_symm _ _ (comm_budget_special msg (lowerL msg) s),
      fun s => EqD_refl _]

/-- On a text where the budget rule does not raise, the fallible rule
agrees with its totalized variant. -/
theorem r_budget_total (msg : List Char) (h : budgetCrashes msg = false)
    (s : WState) : r_budget msg s = some (r_budgetT msg s) := by
  unfold budgetCrashes at h
  unfold r_budgetT r_budget
  rcases hb : budgetDec msg with - | (- | ⟨m, M⟩)
  · rw [hb] at h
    simp at h
  · rfl
  · rfl

/-- On a non-raising text, every rule of the fallible list is total. -/
theorem ruleFunsE_total (msg : List Char) (h : budgetCrashes msg = false) :
    ∀ g ∈ ruleFunsE msg, ∀ s, ((g s).isSome) = true := by
  intro g hg s
  simp only [ruleFunsE, List.mem_cons, List.not_mem_nil, or_false] at hg
  rcases hg with rfl | rfl | rfl | rfl | rfl
  · rfl
  · rfl
  · rfl
  · rw [r_budget_total msg h s]
    rfl
  · rfl

/-- A list of total fallible rules is pointwise the `some` of its
`getD`-totalization. -/
theorem forall2_total (gs : List (WState → Option WState))
    (h : ∀ g ∈ gs, ∀ s, ((g s).isSome) = true) :
    List.Forall₂ (fun g f => ∀ s, g s = some (f s)) gs
      (gs.map (fun g s => (g s).getD s)) := by
  induction gs with
  | nil => exact List.Forall₂.nil
  | cons g rest ih =>
    refine List.Forall₂.cons (fun s => ?_)
      (ih (fun g2 hg2 => h g2 (List.mem_cons_of_mem _ hg2)))
    have hs := h g (List.mem_cons_self _ _) s
    rcases hg : g s with - | v
    · rw [hg] at hs
      simp at hs
    · simp [hg]

/-- Fallible application of total rules never stops early and agrees
with total application of the totalized rules. -/
theorem applyAllE_total (gs : List (WState → Option WState))
    (fs : List (WState → WState))
    (h : List.Forall₂ (fun g f => ∀ s, g s = some (f s)) gs fs) :
    ∀ s, applyAllE gs s = (applyAll fs s, true) := by
  induction h with
  | nil => intro s; rfl
  | cons hgf hrest ih =>
    intro s
    simp only [applyAllE]
    rw [hgf s]
    exact ih _

/-- The totalization of the fallible rule list is the total rule list. -/
theorem ruleFunsE_map (msg : List Char) :
    (ruleFunsE msg).map (fun g s => (g s).getD s) = ruleFuns msg := rfl

/-- Crash-aware order independence: on a text where the budget rule does
not raise, every order of the fallible rules completes the pass and
yields the same state up to dict insertion order. -/
theorem applyAllE_perm_EqD (msg : List Char) (h : budgetCrashes msg = false)
    (gs : List (WState → Option WState)) (hperm : gs.Perm (ruleFunsE msg))
    (s : WState) :
    (applyAllE gs s).2 = true ∧
    EqD (applyAllE gs s).1 (applyAllE (ruleFunsE msg) s).1 := by
  have htotR := ruleFunsE_total msg h
  have htot : ∀ g ∈ gs, ∀ t, ((g t).isSome) = true :=
    fun g hg => htotR g (hperm.mem_iff.mp hg)
  have h1 := applyAllE_total gs _ (forall2_total gs htot) s
  have h2 := applyAllE_total (ruleFunsE msg) _ (forall2_total _ htotR) s
  rw [h1, h2]
  refine ⟨rfl, ?_⟩
  have hmp : (gs.map (fun g s => (g s).getD s)).Perm (ruleFuns msg) := by
    have hp := hperm.map (fun g s => (g s).getD s)
    rwa [ruleFunsE_map] at hp
  have hre := ruleFunsE_map msg
  rw [hre]
  exact ruleFuns_perm_EqD msg _ hmp s

/-- Counterexample for C5: extracting the same allergy text twice appends
`nut allergy` to the special-requirements list a second time, so the
state after two passes differs from the state after one.  Moreover the
pass is order-dependent on a raising text: on `,-1 july 2-3` the budget
rule raises (`int` on an all-comma group), so running the rules in
source order stores `travel_dates` before the raise while running the
budget rule first raises with nothing stored — two permutations of the
same rules leave different states behind. -/
theorem spec_c5_counterexample :
    (extractInfo (("Our son Jack has a nut allergy.").toList)
        (extractInfo (("Our son Jack has a nut allergy.").toList) initWState).2).2
      ≠ (extractInfo (("Our son Jack has a nut allergy.").toList) initWState).2 ∧
    (extractInfo (("Our son Jack has a nut allergy.").toList)
        (extractInfo (("Our son Jack has a nut allergy.").toList) initWState).2).2.special_requirements
      = ["nut allergy", "nut allergy"] ∧
    (extractInfo (("Our son Jack has a nut allergy.").toList)
        initWState).2.special_requirements = ["nut allergy"] ∧
    (budgetFirstE ((",-1 july 2-3").toList)).Perm (ruleFunsE ((",-1 july 2-3").toList)) ∧
    budgetCrashes ((",-1 july 2-3").toList) = true ∧
    (applyAllE (ruleFunsE ((",-1 july 2-3").toList)) initWState).2 = false ∧
    dictGet ("travel_dates")
        (applyAllE (ruleFunsE ((",-1 july 2-3").toList)) initWState).1.collected_info
      = some (Val.vs (("July 2-3, 2024").toList)) ∧
    (applyAllE (budgetFirstE ((",-1 july 2-3").toList)) initWState).1 = initWState ∧
    (applyAllE (budgetFirstE ((",-1 july 2-3").toList)) initWState).1
      ≠ (applyAllE (ruleFunsE ((",-1 july 2-3").toList)) initWState).1 := by
  refine ⟨?_, by decide, by decide, ?_, by decide, by decide, by decide, by decide,
    by decide⟩
  · decide
  · simp only [budgetFirstE, ruleFunsE]
    exact ((List.Perm.swap _ _ _).trans
        (List.Perm.cons _ (List.Perm.swap _ _ _))).trans
      (List.Perm.cons _ (List.Perm.cons _ (List.Perm.swap _ _ _)))

/-- C5 as amended: extraction is idempotent on the collected dict, the
missing list and the phase — but not on the special-requirements list,
which grows on repeated application (see the counterexample) — and on
every text where the budget rule does not raise, the five field rules
may be evaluated in any order: every order completes the pass and
produces the same missing list, phase and special-requirements list and
a collected dict with the same lookups (dict insertion order may
differ).  On a raising text the pass is order-dependent (see the
counterexample). -/
theorem spec_c5_amended_idem_order :
    (∀ msg s, s.missing_info.Nodup →
      (extractInfo msg (extractInfo msg s).2).1 = (extractInfo msg s).1 ∧
      (extractInfo msg (extractInfo msg s).2).2.collected_info
        = (extractInfo msg s).2.collected_info ∧
      (extractInfo msg (extractInfo msg s).2).2.missing_info
        = (extractInfo msg s).2.missing_info ∧
      (extractInfo msg (extractInfo msg s).2).2.conversation_phase
        = (extractInfo msg s).2.conversation_phase) ∧
    (∀ msg : List Char, budgetCrashes msg = false →
      ∀ gs : List (WState → Option WState), gs.Perm (ruleFunsE msg) →
      ∀ s, (applyAllE gs s).2 = true ∧
        EqD (applyAllE gs s).1 (applyAllE (ruleFunsE msg) s).1) := by
  constructor
  · intro msg s hnd
    exact extract_idem msg s hnd
  · intro msg h gs hperm s
    exact applyAllE_perm_EqD msg h gs hperm s

/-- Witness for C5 as amended: idempotence instantiated on the scenario
message at the initial state (whose missing list has no duplicates), and
crash-aware order-independence instantiated at the reversed rule order
on the same non-raising message. -/
theorem spec_c5_amended_idem_order_witness :
    ((extractInfo (("family of 4, July 15-22, $4000-6000").toList)
        (extractInfo (("family of 4, July 15-22, $4000-6000").toList) initWState).2).1
      = (extractInfo (("family of 4, July 15-22, $4000-6000").toList) initWState).1 ∧
      (extractInfo (("family of 4, July 15-22, $4000-6000").toList)
        (extractInfo (("family of 4, July 15-22, $4000-6000").toList) initWState).2).2.collected_info
      = (extractInfo (("family of 4, July 15-22, $4000-6000").toList) initWState).2.collected_info ∧
      (extractInfo (("family of 4, July 15-22, $4000-6000").toList)
        (extractInfo (("family of 4, July 15-22, $4000-6000").toList) initWState).2).2.missing_info
      = (extractInfo (("family of 4, July 15-22, $4000-6000").toList) initWState).2.missing_info ∧
      (extractInfo (("family of 4, July 15-22, $4000-6000").toList)
        (extractInfo (("family of 4, July 15-22, $4000-6000").toList) initWState).2).2.conversation_phase
      = (extractInfo (("family of 4, July 15-22, $4000-6000").toList) initWState).2.conversation_phase) ∧
    ((applyAllE ((ruleFunsE (("family of 4, July 15-22, $4000-6000").toList)).reverse)
        initWState).2 = true ∧
      EqD
        (applyAllE ((ruleFunsE (("family of 4, July 15-22, $4000-6000").toList)).reverse)
          initWState).1
        (applyAllE (ruleFunsE (("family of 4, July 15-22, $4000-6000").toList))
          initWState).1) :=
  ⟨spec_c5_amended_idem_order.1 _ initWState (by decide),
   spec_c5_amended_idem_order.2 _ (by decide) _
     (List.reverse_perm (ruleFunsE (("family of 4, July 15-22, $4000-6000").toList)))
     initWState⟩

/-- The round loop never executes more rounds than its budget. -/
theorem runRounds_le (events : Nat → RoundEvent) :
    ∀ fuel rn, (runRounds events fuel rn).1 ≤ fuel := by
  intro fuel
  induction fuel with
  | zero => intro rn; simp [runRounds]
  | succ fuel ih =>
    intro rn
    simp only [runRounds]
    cases events rn with
    | noClient =>
      dsimp only
      omega
    | ok confirmed =>
      cases confirmed
      · dsimp only
        have := ih (rn + 1)
        simp only [Bool.false_eq_true, if_false]
        omega
      · dsimp only
        simp only [if_true]
        omega
    | fail e =>
      dsimp only
      have := ih (rn + 1)
      omega

theorem orchRun_ended (turns : Nat → MIIState → MIIState) (n k : Nat) (s : MIIState)
    (h : s.conversation_ended = true) : orchRun turns n k s = s := by
  cases n <;> simp [orchRun, h]

theorem check_messages (s : MIIState) :
    (checkConversationEnd s).messages = s.messages := by
  simp only [checkConversationEnd]
  split_ifs <;> rfl

theorem check_ended_big (s : MIIState) (h : 10 < s.messages.length) :
    (checkConversationEnd s).conversation_ended = true := by
  unfold checkConversationEnd
  by_cases he : s.conversation_ended = true
  · simp [he]
  · rw [if_neg he, if_pos h]

/-- With turns that each append at least one message, the orchestrator
loop reaches `conversation_ended` within its budget once the budget
covers the 10-message cap. -/
theorem orchRun_terminates (turns : Nat → MIIState → MIIState)
    (happ : ∀ j t, t.messages.length < (turns j t).messages.length) :
    ∀ n k s, 10 < s.messages.length + n → 1 ≤ n →
      (orchRun turns n k s).conversation_ended = true := by
  intro n
  induction n with
  | zero =>
    intro k s hlen h1
    exact absurd h1 (by norm_num)
  | succ n ih =>
    intro k s hlen h1
    by_cases he : s.conversation_ended = true
    · rw [orchRun_ended turns _ _ _ he]
      exact he
    · simp only [orchRun]
      rw [if_neg he]
      by_cases he2 : (checkConversationEnd (turns k s)).conversation_ended = true
      · rw [orchRun_ended turns _ _ _ he2]
        exact he2
      · have hsmall : (turns k s).messages.length ≤ 10 := by
          by_contra hbig
          exact he2 (check_ended_big _ (by omega))
        have hgrow := happ k s
        apply ih (k + 1)
        · rw [check_messages]
          omega
        · omega

/-- C8: the Mark I demo engine runs each conversation through a loop of at
most `max_rounds = 8` rounds, for every behaviour of the graph and
Wandero (so every conversation terminates within the round budget); and
in the Mark II orchestrator, whenever every agent turn appends at least
one message, `_check_conversation_end` forces `conversation_ended` within
11 turns of an empty-thread start — the engine never produces an
unterminated conversation. -/
theorem spec_c8_termination :
    (∀ (events : Nat → RoundEvent) (rn : Nat), (runRounds events 8 rn).1 ≤ 8) ∧
    (∀ turns : Nat → MIIState → MIIState,
      (∀ j t, t.messages.length < (turns j t).messages.length) →
      ∀ s : MIIState, s.messages = [] →
        (orchRun turns 11 0 s).conversation_ended = true) := by
  constructor
  · intro events rn
    exact runRounds_le events 8 rn
  · intro turns happ s hs
    apply orchRun_terminates turns happ 11 0 s
    · rw [hs]
      simp
    · norm_num

/-- Witness for C8: an always-succeeding round oracle stays within 8
rounds, and a turn that appends one message ends the Mark II conversation
within 11 turns from the initial state. -/
theorem spec_c8_termination_witness :
    (runRounds (fun _ => RoundEvent.ok false) 8 0).1 ≤ 8 ∧
    (orchRun demoTurn 11 0 initMII).conversation_ended = true :=
  ⟨spec_c8_termination.1 (fun _ => RoundEvent.ok false) 0,
   spec_c8_termination.2 demoTurn
     (fun j t => by simp [demoTurn]) initMII rfl⟩

/-- Conversation ids are injective on (persona type, timestamp) pairs as
long as all timestamps have the same length (they do: `strftime` emits a
fixed 15-character format). -/
theorem threadId_inj (p1 s1 p2 s2 : String) (hlen : s1.length = s2.length)
    (h : threadId p1 s1 = threadId p2 s2) : p1 = p2 ∧ s1 = s2 := by
  unfold threadId at h
  have hd : p1.data ++ ('_' :: s1.data) = p2.data ++ ('_' :: s2.data) := by
    have h2 := congrArg String.data h
    simpa [String.data_append] using h2
  have hlen2 : ('_' :: s1.data).length = ('_' :: s2.data).length := by
    simp only [List.length_cons]
    have : s1.data.length = s2.data.length := hlen
    omega
  obtain ⟨h1, h2⟩ := List.append_inj' hd hlen2
  refine ⟨?_, ?_⟩
  · exact String.ext h1
  · exact String.ext (List.cons_injective h2)

/-- A round that raises while the loop is still running gets its error
recorded in the conversation's error list. -/
theorem runRounds_error_mem (events : Nat → RoundEvent) :
    ∀ fuel rn n e, n < fuel → (∀ j, j < n → events (rn + j) = RoundEvent.ok false) →
    events (rn + n) = RoundEvent.fail e →
    roundError (rn + n + 1) e ∈ (runRounds events fuel rn).2.2.2 := by
  intro fuel
  induction fuel with
  | zero =>
    intro rn n e hn
    omega
  | succ fuel ih =>
    intro rn n e hn hpre hfail
    cases n with
    | zero =>
      rw [Nat.add_zero] at hfail
      simp only [runRounds]
      rw [hfail]
      simp
    | succ n2 =>
      have h0 : events rn = RoundEvent.ok false := by
        have := hpre 0 (by omega)
        simpa using this
      simp only [runRounds]
      rw [h0]
      simp only [Bool.false_eq_true, if_false]
      have hres := ih (rn + 1) n2 e (by omega)
        (fun j hj => by
          have := hpre (j + 1) (by omega)
          rw [show rn + 1 + j = rn + (j + 1) from by omega]
          exact this)
        (by rw [show rn + 1 + n2 = rn + (n2 + 1) from by omega]; exact hfail)
      rw [show rn + (n2 + 1) + 1 = rn + 1 + n2 + 1 from by omega]
      exact hres

/-- Counterexample for C1: requesting the same persona type twice with the
same start second yields two results sharing one conversation id
(`thread_id` is `persona_type` + start time to the second; duplicated
personas even share one `StatefulWandero` instance). -/
theorem spec_c1_counterexample :
    (runParallelConversations
      [⟨"worried_parent", "20250101_120000", fun _ => RoundEvent.noClient⟩,
       ⟨"worried_parent", "20250101_120000", fun _ => RoundEvent.noClient⟩]).length = 2 ∧
    ((runParallelConversations
      [⟨"worried_parent", "20250101_120000", fun _ => RoundEvent.noClient⟩,
       ⟨"worried_parent", "20250101_120000", fun _ => RoundEvent.noClient⟩]).map
        (fun r => r.thread_id))
      = ["worried_parent_20250101_120000", "worried_parent_20250101_120000"] ∧
    ¬ ((runParallelConversations
      [⟨"worried_parent", "20250101_120000", fun _ => RoundEvent.noClient⟩,
       ⟨"worried_parent", "20250101_120000", fun _ => RoundEvent.noClient⟩]).map
        (fun r => r.thread_id)).Nodup := by
  refine ⟨rfl, ?_, ?_⟩
  · rfl
  · intro hnd
    have h2 : ((runParallelConversations
        [⟨"worried_parent", "20250101_120000", fun _ => RoundEvent.noClient⟩,
         ⟨"worried_parent", "20250101_120000", fun _ => RoundEvent.noClient⟩]).map
          (fun r => r.thread_id))
        = ["worried_parent_20250101_120000", "worried_parent_20250101_120000"] := rfl
    rw [h2] at hnd
    simp at hnd

/-- C1 as amended: a batch run returns exactly one result per requested
conversation, each computed independently from that conversation alone
(so a failing round is recorded in its own result's errors and cannot
affect siblings); conversation ids are pairwise distinct **provided** no
two requests share both the persona type and the start second. -/
theorem spec_c1_amended_batch :
    (∀ convs : List ConvRequest,
      (runParallelConversations convs).length = convs.length) ∧
    (∀ (convs : List ConvRequest) (i : Nat),
      (runParallelConversations convs).get? i
        = (convs.get? i).map (fun c => runSingleConversation c.pt c.stamp c.events)) ∧
    (∀ (pt stamp : String) (events : Nat → RoundEvent) (n : Nat) (e : String),
      n < 8 → (∀ j, j < n → events j = RoundEvent.ok false) →
      events n = RoundEvent.fail e →
      roundError (n + 1) e ∈ (runSingleConversation pt stamp events).errors) ∧
    (∀ convs : List ConvRequest,
      (convs.map (fun c => (c.pt, c.stamp))).Nodup →
      (∀ c ∈ convs, c.stamp.length = 15) →
      ((runParallelConversations convs).map (fun r => r.thread_id)).Nodup) := by
  refine ⟨?_, ?_, ?_, ?_⟩
  · intro convs
    simp [runParallelConversations]
  · intro convs i
    simp [runParallelConversations, List.get?_map]
  · intro pt stamp events n e hn hpre hfail
    have := runRounds_error_mem events 8 0 n e hn
      (fun j hj => by simpa using hpre j hj) (by simpa using hfail)
    simpa [runSingleConversation] using this
  · intro convs hnd hlen
    have hmap : ((runParallelConversations convs).map (fun r => r.thread_id))
        = (convs.map (fun c => (c.pt, c.stamp))).map (fun q => threadId q.1 q.2) := by
      simp only [runParallelConversations, List.map_map]
      rfl
    rw [hmap]
    refine List.Nodup.map_on ?_ hnd
    intro q1 hq1 q2 hq2 he
    have hl1 : q1.2.length = 15 := by
      simp only [List.mem_map] at hq1
      obtain ⟨c, hc, rfl⟩ := hq1
      exact hlen c hc
    have hl2 : q2.2.length = 15 := by
      simp only [List.mem_map] at hq2
      obtain ⟨c, hc, rfl⟩ := hq2
      exact hlen c hc
    obtain ⟨ha, hb⟩ := threadId_inj q1.1 q1.2 q2.1 q2.2 (by rw [hl1, hl2]) he
    exact Prod.ext ha hb

/-- Witness for C1 as amended: five requested conversations (one failing
with a quota error, one confirming, one breaking early) produce five
results with distinct ids, and the failing round's error is recorded. -/
theorem spec_c1_amended_batch_witness :
    (runParallelConversations demoConvs).length = demoConvs.length ∧
    roundError 1 "API quota exceeded" ∈
      (runSingleConversation ("luxury_seeker") ("20250101_120001")
        (fun _ => RoundEvent.fail "API quota exceeded")).errors ∧
    ((runParallelConversations demoConvs).map (fun r => r.thread_id)).Nodup :=
  ⟨spec_c1_amended_batch.1 demoConvs,
   spec_c1_amended_batch.2.2.1 ("luxury_seeker") ("20250101_120001") _ 0
     ("API quota exceeded") (by norm_num) (fun j hj => absurd hj (by omega)) rfl,
   spec_c1_amended_batch.2.2.2 demoConvs (by decide)
     (fun c hc => by fin_cases hc <;> decide)⟩
